import Mathlib

/-! uuidpp: the UUID value type, its constructors and its renderings

A shallow embedding of `src/uuidpp.hpp` and `src/uuidpp.cpp`.

* Machine integers are natural numbers reduced modulo `2 ^ w`; the fixed-width
  C++ types are `Fin (2 ^ w)`.
* The constructors write multi-byte integers into the 16-byte buffer through
  pointer casts after an `htobeN` conversion.  Both steps depend on the byte
  order of the host, which is the parameter `le` (`true`: little-endian host).
* A buffer that the C++ code leaves uninitialised is a parameter `raw`.
* `std::array::at` throws `std::out_of_range`; a computation that can throw
  returns an `Option`.
* `std::string` is a list of characters.
* The MD5 and SHA-1 collaborators and the random source are parameters.
-/

namespace uuidpp

/-! ## Machine integers and the byte buffer -/

abbrev uint8_t := Fin 256
abbrev uint16_t := Fin (2 ^ 16)
abbrev uint32_t := Fin (2 ^ 32)
abbrev uint64_t := Fin (2 ^ 64)

/-- The base class `std::array<uint8_t, 16>`. -/
abbrev parent_t := Fin 16 → uint8_t

/-- The class `uuid`, which adds no data member to its base. -/
abbrev uuid := parent_t

/-- Conversion to `uint8_t`. -/
def to_u8 (x : Nat) : uint8_t := ⟨x % 256, Nat.mod_lt _ (by decide)⟩

/-- Conversion to `uint16_t`. -/
def to_u16 (x : Nat) : uint16_t := ⟨x % 2 ^ 16, Nat.mod_lt _ (by decide)⟩

/-- Conversion to `uint32_t`. -/
def to_u32 (x : Nat) : uint32_t := ⟨x % 2 ^ 32, Nat.mod_lt _ (by decide)⟩

/-- Conversion to `uint64_t`. -/
def to_u64 (x : Nat) : uint64_t := ⟨x % 2 ^ 64, Nat.mod_lt _ (by decide)⟩

/-- Aggregate initialisation of a `std::array<uint8_t, 16>` from a brace list:
elements without an initialiser are zero. -/
def of_bytes (l : List uint8_t) : parent_t := fun i => l.getD i.val 0

/-- Byte `k` of an unsigned integer, byte 0 being the least significant. -/
def byte_of (v k : Nat) : uint8_t := to_u8 (v >>> (8 * k))

/-- Reversal of the `w` bytes of an unsigned integer. -/
def bswap (w v : Nat) : Nat :=
  (List.range w).foldl (fun acc k => acc * 256 + (byte_of v k).val) 0

/-- Modelled from the spec: `portable-endian.h` is not among the sources.
`htobe16`, `htobe32` and `htobe64` (`w` = 2, 4, 8) convert a host-order integer to
big-endian order: a byte swap on a little-endian host, the identity on a
big-endian one. -/
def htobe (le : Bool) (w v : Nat) : Nat := if le then bswap w v else v

/-- Modelled from the spec: `portable-endian.h` is not among the sources.
`be64toh` (`w` = 8) converts a big-endian integer to host order: a byte swap on a
little-endian host, the identity on a big-endian one. -/
def betoh (le : Bool) (w v : Nat) : Nat := if le then bswap w v else v

/-- The store `*((uintN_t*)&at(off)) = v` of a `w`-byte integer: the host writes
the least significant byte first when it is little-endian, last otherwise. -/
def store (le : Bool) (w : Nat) (buf : parent_t) (off v : Nat) : parent_t :=
  fun i =>
    if off ≤ i.val ∧ i.val < off + w then
      byte_of v (if le then i.val - off else w - 1 - (i.val - off))
    else buf i

/-- The load `*(uint64_t*)p` of the eight bytes found at `p`, in host order: the
first byte in memory is the least significant one on a little-endian host, the most
significant one otherwise. -/
def load64 (le : Bool) (mem : List uint8_t) : Nat :=
  (List.range 8).foldl
    (fun acc k => acc + (mem.getD k 0).val * 2 ^ (8 * (if le then k else 7 - k))) 0

/-- The member `std::array::at`, which throws when the index is out of range. -/
def uuid_at (u : parent_t) (n : Nat) : Option uint8_t :=
  if h : n < 16 then some (u ⟨n, h⟩) else none

/-! ## Enumerations -/

/-- The enumeration `version_t`, of underlying type `uint8_t`. -/
abbrev version_t := uint8_t

def version_unknown : version_t := 0x00
def version_time_based : version_t := 0x01
def version_dce_security : version_t := 0x02
def version_name_based_md5 : version_t := 0x03
def version_random : version_t := 0x04
def version_name_based_sha1 : version_t := 0x05

/-- The enumeration `variant_t`. -/
inductive variant_t where
  | variant_unknown
  | variant_ncs
  | variant_rfc4122
  | variant_microsoft
  | variant_future
  deriving DecidableEq

/-! ## Constructors -/

/-- The default constructor `uuid()`: the nil UUID. -/
def uuid_default : uuid := of_bytes [0, 0, 0, 0, 0, 0, 0, 0, 0, 0, 0, 0, 0, 0, 0, 0]

/-- The constructor `uuid(msb, lsb)`.  The base array is not initialised before
the two stores. -/
def uuid_msb_lsb (le : Bool) (raw : parent_t) (msb lsb : uint64_t) : uuid :=
  let b1 := store le 8 raw 0 (htobe le 8 msb.val)
  store le 8 b1 8 (htobe le 8 lsb.val)

/-- The constructor `uuid(time_low, time_mid, time_hi_and_version, clock_seq, node)`.
The base array is not initialised before the five stores; the store of `node`
covers bytes 8 to 15 and the store of the clock sequence then overwrites bytes 8
and 9. -/
def uuid_fields (le : Bool) (raw : parent_t) (time_low : uint32_t) (time_mid : uint16_t)
    (time_hi_and_version : uint16_t) (clock_seq : uint16_t) (node : uint64_t) : uuid :=
  let b1 := store le 4 raw 0 (htobe le 4 time_low.val)
  let b2 := store le 2 b1 4 (htobe le 2 time_mid.val)
  let b3 := store le 2 b2 6 (htobe le 2 time_hi_and_version.val)
  let b4 := store le 8 b3 8 (htobe le 8 node.val)
  store le 2 b4 8 (htobe le 2 (to_u16 ((clock_seq.val &&& 0x3FFF) ||| 0x8000)).val)

/-- The constructor `uuid(time, version, clock_seq, node)`, which delegates to the
five-field constructor; each argument is converted to the parameter type. -/
def uuid_time (le : Bool) (raw : parent_t) (time : uint64_t) (version : version_t)
    (clock_seq : uint16_t) (node : uint64_t) : uuid :=
  uuid_fields le raw
    (to_u32 (time.val &&& 0xFFFFFFFF))
    (to_u16 ((time.val >>> 32) &&& 0xFFFF))
    (to_u16 (((time.val >>> 48) &&& 0x0FFF) ||| ((to_u16 version.val).val <<< 12)))
    clock_seq
    node

/-- The constructor `uuid(const std::array<uint8_t, 16>& arr)`, and its moving form:
the base array is a copy of `arr`. -/
def uuid_array (arr : parent_t) : uuid := arr

/-- The loop shared by the two template constructors,
`for(size_t n; n<16 && it!=end;) at(n++) = *it++`, entered with loop variable `n`
and with the elements that remain between the iterator and the end. -/
def fill_from : parent_t → List uint8_t → Nat → parent_t
  | buf, [], _ => buf
  | buf, x :: rest, n =>
    if h : n < 16 then fill_from (Function.update buf ⟨n, h⟩ x) rest (n + 1) else buf

/-- The template constructor `uuid(const It& begin, const It& end)`; `range` holds
the elements between the two iterators.  The constructor has no initialiser for the
base array, so the loop starts from whatever the storage holds. -/
def uuid_range (raw : parent_t) (range : List uint8_t) : uuid := fill_from raw range 0

/-- The template constructor `uuid(const Cont& cont)`, which runs the same loop from
`cont.begin()` to `cont.end()` and has no initialiser for the base array either. -/
def uuid_container (raw : parent_t) (cont : List uint8_t) : uuid := fill_from raw cont 0

/-! ## Observers -/

/-- The member `variant()`. -/
def variant (u : uuid) : variant_t :=
  if (u 8).val >>> 5 = 0x07 then variant_t.variant_future
  else if (u 8).val >>> 5 = 0x06 then variant_t.variant_microsoft
  else if (u 8).val >>> 6 = 0x02 then variant_t.variant_rfc4122
  else if (u 8).val >>> 7 = 0x00 then variant_t.variant_ncs
  else variant_t.variant_unknown

/-- The member `version()`. -/
def version (u : uuid) : version_t := to_u8 (((u 6).val &&& 0xF0) >>> 4)

/-- The member `nil()`. -/
def nil (u : uuid) : Bool :=
  u 0 == 0 && u 1 == 0 && u 2 == 0 && u 3 == 0
    && u 4 == 0 && u 5 == 0 && u 6 == 0 && u 7 == 0
    && u 8 == 0 && u 9 == 0 && u 10 == 0 && u 11 == 0
    && u 12 == 0 && u 13 == 0 && u 14 == 0 && u 15 == 0

/-- The conversion `operator bool()`. -/
def operator_bool (u : uuid) : Bool := !nil u

/-- Unary minus on a `size_t` (64 bits wide). -/
def size_t_neg (n : Nat) : Nat := (2 ^ 64 - n) % 2 ^ 64

/-- Conversion of a `size_t` to `int` (32 bits wide, two's complement). -/
def to_int (x : Nat) : Int :=
  if x % 2 ^ 32 < 2 ^ 31 then ((x % 2 ^ 32 : Nat) : Int) else ((x % 2 ^ 32 : Nat) : Int) - 2 ^ 32

/-- The loop of `compare`, entered with loop variable `n`.  Both branches of the
conditional expression have type `size_t`, and the `return` converts to `int`. -/
def compare_from (a b : uuid) (n : Nat) : Int :=
  if h : n < 16 then
    if a ⟨n, h⟩ ≠ b ⟨n, h⟩ then
      (if a ⟨n, h⟩ < b ⟨n, h⟩ then to_int (size_t_neg n) else to_int n)
    else compare_from a b (n + 1)
  else 0
termination_by 16 - n

/-- The member `compare`. -/
def compare (a b : uuid) : Int := compare_from a b 0

/-- The friend `operator==`. -/
def operator_eq (l r : uuid) : Bool := decide (compare l r = 0)

/-- The friend `operator!=`. -/
def operator_ne (l r : uuid) : Bool := decide (compare l r ≠ 0)

/-- The friend `operator<`. -/
def operator_lt (l r : uuid) : Bool := decide (compare l r < 0)

/-- The friend `operator>`. -/
def operator_gt (l r : uuid) : Bool := decide (compare l r > 0)

/-- The friend `operator<=`. -/
def operator_le (l r : uuid) : Bool := decide (compare l r ≤ 0)

/-- The friend `operator>=`. -/
def operator_ge (l r : uuid) : Bool := decide (compare l r ≥ 0)

/-! ## Named constructors -/

/-- The static member `version1(timestamp, clock_seq, mac_address)` whose node is
an integer. -/
def version1 (le : Bool) (raw : parent_t) (timestamp : uint64_t) (clock_seq : uint16_t)
    (mac_address : uint64_t) : uuid :=
  uuid_time le raw timestamp version_time_based clock_seq mac_address

/-- The eight bytes read by `*(uint64_t*)mac_address.data()`: the six bytes of the
array and the two bytes `past` that follow it in memory. -/
def mac_memory (mac_address : Fin 6 → uint8_t) (past : Fin 2 → uint8_t) : List uint8_t :=
  [mac_address 0, mac_address 1, mac_address 2, mac_address 3, mac_address 4, mac_address 5,
    past 0, past 1]

/-- The static member `version1(timestamp, clock_seq, mac_address)` whose node is a
`std::array<uint8_t, 6>`.  The shift is a 64-bit shift. -/
def version1_array (le : Bool) (raw : parent_t) (past : Fin 2 → uint8_t) (timestamp : uint64_t)
    (clock_seq : uint16_t) (mac_address : Fin 6 → uint8_t) : uuid :=
  let node := to_u64 (load64 le (mac_memory mac_address past) <<< 16)
  uuid_time le raw timestamp version_time_based clock_seq (to_u64 (betoh le 8 node.val))

/-- The loop of `version4` that fills `src` with the values drawn from the
distribution, each converted to `uint8_t`. -/
def fill_random (src : parent_t) (draws : Fin 16 → Fin 256) : parent_t :=
  (List.finRange 16).foldl (fun acc n => Function.update acc n (to_u8 (draws n).val)) src

/-- The static member `version4()`.  The sixteen values that the generator yields
during the call (each between 0 and 255) are the parameter `draws`; `src` is not
initialised before the loop. -/
def version4 (raw : parent_t) (draws : Fin 16 → Fin 256) : uuid :=
  let src := fill_random raw draws
  let src := Function.update src 8 (to_u8 (((src 8).val &&& 0x3F) ||| 0x80))
  Function.update src 6 (to_u8 (((src 6).val &&& 0x0F) ||| 0x40))

/-- The bytes `ns.data()`, of length `ns.size()`. -/
def data (u : uuid) : List uint8_t := List.ofFn u

/-- Modelled from the spec: `md5.h` is not among the sources.  The MD5 collaborator
with its interface `MD5_Init`, `MD5_Update` (which absorbs a byte sequence) and
`MD5_Final` (which writes a 16-byte digest). -/
structure MD5 where
  CTX : Type
  Init : CTX
  Update : CTX → List uint8_t → CTX
  Final : CTX → (Fin 16 → uint8_t)

/-- The SHA-1 collaborator declared in `sha1.h`: `SHA1_Init`, `SHA1_Update` (which
absorbs the `len` bytes found at `data`) and `SHA1_Final` (which writes a 20-byte
digest). -/
structure SHA1 where
  CTX : Type
  Init : CTX
  Update : CTX → List uint8_t → CTX
  Final : CTX → (Fin 20 → uint8_t)

/-- The digest of a whole message: one update, then the final step. -/
def MD5.digest (md5 : MD5) (msg : List uint8_t) : Fin 16 → uint8_t :=
  md5.Final (md5.Update md5.Init msg)

/-- The digest of a whole message: one update, then the final step. -/
def SHA1.digest (sha1 : SHA1) (msg : List uint8_t) : Fin 20 → uint8_t :=
  sha1.Final (sha1.Update sha1.Init msg)

/-- The incremental contract of a digest: absorbing two sequences one after the
other is absorbing their concatenation. -/
def MD5.streaming (md5 : MD5) : Prop :=
  ∀ (c : md5.CTX) (x y : List uint8_t), md5.Update (md5.Update c x) y = md5.Update c (x ++ y)

/-- The incremental contract of a digest: absorbing two sequences one after the
other is absorbing their concatenation. -/
def SHA1.streaming (sha1 : SHA1) : Prop :=
  ∀ (c : sha1.CTX) (x y : List uint8_t), sha1.Update (sha1.Update c x) y = sha1.Update c (x ++ y)

/-- The static member `version3(ns, name, name_len)`; `name` holds the `name_len`
bytes found at the pointer. -/
def version3 (md5 : MD5) (ns : uuid) (name : List uint8_t) : uuid :=
  let ctx := md5.Init
  let ctx := md5.Update ctx (data ns)
  let ctx := md5.Update ctx name
  let res : uuid := md5.Final ctx
  let res := Function.update res 8 (to_u8 (((res 8).val &&& 0x3F) ||| 0x80))
  Function.update res 6 (to_u8 (((res 6).val &&& 0x0F) ||| 0x30))

/-- The call `SHA1_Update(ctx, data, len)` with a `size_t` length: the parameter
`len` is a `uint32_t`, so the length is converted modulo `2 ^ 32` and that many
bytes are absorbed. -/
def SHA1_Update_size_t (sha1 : SHA1) (ctx : sha1.CTX) (bytes : List uint8_t) (len : Nat) :
    sha1.CTX :=
  sha1.Update ctx (bytes.take (to_u32 len).val)

/-- The static member `version5(ns, name, name_len)`; `name` holds the `name_len`
bytes found at the pointer.  `std::copy` moves the first 16 bytes of the 20-byte
buffer into the result. -/
def version5 (sha1 : SHA1) (ns : uuid) (name : List uint8_t) : uuid :=
  let ctx := sha1.Init
  let ctx := SHA1_Update_size_t sha1 ctx (data ns) 16
  let ctx := SHA1_Update_size_t sha1 ctx name name.length
  let buffer := sha1.Final ctx
  let res : uuid := fun i => buffer ⟨i.val, by omega⟩
  let res := Function.update res 8 (to_u8 (((res 8).val &&& 0x3F) ||| 0x80))
  Function.update res 6 (to_u8 (((res 6).val &&& 0x0F) ||| 0x50))

/-- The overload `version3(ns, const std::string& name)`, which passes
`name.data()` and `name.size()`. -/
def version3_string (md5 : MD5) (ns : uuid) (name : List uint8_t) : uuid :=
  version3 md5 ns name

/-- The constructor `std::string(const char*)`: the characters found at the pointer
before the first zero byte. -/
def string_of_c_str (mem : List uint8_t) : List uint8_t :=
  mem.takeWhile (fun b => b != 0)

/-- The overload `version3(ns, const char* name)`, which builds a `std::string` and
calls the overload above; `mem` is the memory found at the pointer. -/
def version3_c_str (md5 : MD5) (ns : uuid) (mem : List uint8_t) : uuid :=
  version3_string md5 ns (string_of_c_str mem)

/-- The template overload `version3(ns, const Cont& name)` for a container of bytes,
which passes `name.data()` and `name.size()`. -/
def version3_container (md5 : MD5) (ns : uuid) (name : List uint8_t) : uuid :=
  version3 md5 ns name

/-- The template overload `version3(ns, begin, end)`, which copies the range into a
`std::vector<uint8_t>` and passes its data and size. -/
def version3_range (md5 : MD5) (ns : uuid) (range : List uint8_t) : uuid :=
  let buff := range.map (fun b => to_u8 b.val)
  version3 md5 ns buff

/-- The template overload `version5(ns, const Cont& name)` for a container of bytes,
which passes `name.data()` and `name.size()`. -/
def version5_container (sha1 : SHA1) (ns : uuid) (name : List uint8_t) : uuid :=
  version5 sha1 ns name

/-- The overload `version5(ns, const char* name)`, which builds a `std::string` and
calls the template overload with it; `mem` is the memory found at the pointer. -/
def version5_c_str (sha1 : SHA1) (ns : uuid) (mem : List uint8_t) : uuid :=
  version5_container sha1 ns (string_of_c_str mem)

/-! ## Renderings -/

/-- The constant `hex`. -/
def hex : List Char := "0123456789abcdef".toList

/-- Indexing of the constant `hex`; reading past its end is an error. -/
def hex_at (i : Nat) : Option Char := hex[i]?

/-- The constructor `std::string(count, ch)`. -/
def string_of_size (count : Nat) (ch : Char) : List Char := List.replicate count ch

/-- The assignment `res[n] = c`; writing past the end of the string is an error. -/
def str_set (s : List Char) (n : Nat) (c : Char) : Option (List Char) :=
  if n < s.length then some (s.set n c) else none

/-- The loop of `to_hex`, entered with loop variables `n` and `m`. -/
def to_hex_loop (u : uuid) (res : List Char) (n m : Nat) : Option (List Char) :=
  if n < 16 * 2 then do
    let b ← uuid_at u m
    let c ← hex_at ((b.val &&& 0xF0) >>> 4)
    let res ← str_set res n c
    let b ← uuid_at u m
    let c ← hex_at (b.val &&& 0x0F)
    let res ← str_set res (n + 1) c
    to_hex_loop u res (n + 2) (m + 1)
  else some res
termination_by 16 * 2 - n

/-- The member `to_hex()`. -/
def to_hex (u : uuid) : Option (List Char) :=
  to_hex_loop u (string_of_size (16 * 2) (Char.ofNat 0)) 0 0

/-- The loop of `to_string`, entered with loop variables `n` and `m`. -/
def to_string_loop (u : uuid) (res : List Char) (n m : Nat) : Option (List Char) :=
  if n < 16 * 2 + 4 then do
    let c0 ← res[n]?
    if c0 ≠ '-' then
      let b ← uuid_at u m
      let c ← hex_at ((b.val &&& 0xF0) >>> 4)
      let res ← str_set res n c
      let b ← uuid_at u m
      let c ← hex_at (b.val &&& 0x0F)
      let res ← str_set res (n + 1) c
      to_string_loop u res (n + 2) (m + 1)
    else
      to_string_loop u res (n + 1) m
  else some res
termination_by 16 * 2 + 4 - n

/-- The member `to_string()`.  The chained assignment of the hyphens runs from
right to left. -/
def to_string (u : uuid) : Option (List Char) := do
  let res := string_of_size (16 * 2 + 4) (Char.ofNat 0)
  let res ← str_set res 23 '-'
  let res ← str_set res 18 '-'
  let res ← str_set res 13 '-'
  let res ← str_set res 8 '-'
  to_string_loop u res 0 0

/-- The loop of `to_msguid`, entered with loop variables `n` and `m`. -/
def to_msguid_loop (u : uuid) (res : List Char) (n m : Nat) : Option (List Char) :=
  if n < 16 * 2 + 4 + 2 - 1 then do
    let c0 ← res[n]?
    if c0 ≠ '-' then
      let b ← uuid_at u m
      let c ← hex_at ((b.val &&& 0xF0) >>> 4)
      let res ← str_set res n c
      let b ← uuid_at u m
      let c ← hex_at (b.val &&& 0x0F)
      let res ← str_set res (n + 1) c
      to_msguid_loop u res (n + 2) (m + 1)
    else
      to_msguid_loop u res (n + 1) m
  else some res
termination_by 16 * 2 + 4 + 2 - 1 - n

/-- The member `to_msguid()`. -/
def to_msguid (u : uuid) : Option (List Char) := do
  let res := string_of_size (16 * 2 + 4 + 2) (Char.ofNat 0)
  let res ← str_set res (23 + 1) '-'
  let res ← str_set res (18 + 1) '-'
  let res ← str_set res (13 + 1) '-'
  let res ← str_set res (8 + 1) '-'
  let res ← str_set res 0 '\x7b'
  let res ← str_set res 37 '\x7d'
  to_msguid_loop u res 1 0

/-- The member `to_urn()`. -/
def to_urn (u : uuid) : Option (List Char) := do
  let s ← to_string u
  some ("urn:uuid:".toList ++ s)

/-! ## Namespace constants -/

namespace uuid_ns

/-- The constant `uuid_ns::dns`. -/
def dns : uuid := of_bytes
  [0x6b, 0xa7, 0xb8, 0x10, 0x9d, 0xad, 0x11, 0xd1,
   0x80, 0xb4, 0x00, 0xc0, 0x4f, 0xd4, 0x30, 0xc8]

/-- The constant `uuid_ns::url`. -/
def url : uuid := of_bytes
  [0x6b, 0xa7, 0xb8, 0x11, 0x9d, 0xad, 0x11, 0xd1,
   0x80, 0xb4, 0x00, 0xc0, 0x4f, 0xd4, 0x30, 0xc8]

/-- The constant `uuid_ns::oid`. -/
def oid : uuid := of_bytes
  [0x6b, 0xa7, 0xb8, 0x12, 0x9d, 0xad, 0x11, 0xd1,
   0x80, 0xb4, 0x00, 0xc0, 0x4f, 0xd4, 0x30, 0xc8]

/-- The constant `uuid_ns::x500`. -/
def x500 : uuid := of_bytes
  [0x6b, 0xa7, 0xb8, 0x14, 0x9d, 0xad, 0x11, 0xd1,
   0x80, 0xb4, 0x00, 0xc0, 0x4f, 0xd4, 0x30, 0xc8]

end uuid_ns

/-! ## Specification-side definitions -/

/-- Unsigned lexicographic order on the sixteen bytes, byte 0 most significant:
`a` precedes `b` when they differ and `a` holds the smaller byte at the first
index where they differ. -/
def lex_lt (a b : uuid) : Prop :=
  ∃ i : Fin 16, (∀ j : Fin 16, j < i → a j = b j) ∧ a i < b i

instance (a b : uuid) : Decidable (lex_lt a b) := by
  unfold lex_lt
  infer_instance

/-- The 48-bit node that a 6-byte array denotes when its first byte is the most
significant one. -/
def node_of_mac (m : Fin 6 → uint8_t) : uint64_t :=
  to_u64 ((m 0).val <<< 40 ||| (m 1).val <<< 32 ||| (m 2).val <<< 24 ||| (m 3).val <<< 16 |||
    (m 4).val <<< 8 ||| (m 5).val)

/-- Aggregate initialisation of a `std::array<uint8_t, 6>` from a brace list. -/
def mac_bytes (l : List uint8_t) : Fin 6 → uint8_t := fun i => l.getD i.val 0

/-- The result that the specification prescribes for `version3`: the MD5 digest of
the namespace bytes followed by the name bytes, with byte 6 replaced by
`(d[6] & 0x0F) | 0x30` and byte 8 by `(d[8] & 0x3F) | 0x80`. -/
def version3_spec (md5 : MD5) (ns : uuid) (name : List uint8_t) : uuid :=
  fun i =>
    if i = 6 then to_u8 (((md5.digest (data ns ++ name) 6).val &&& 0x0F) ||| 0x30)
    else if i = 8 then to_u8 (((md5.digest (data ns ++ name) 8).val &&& 0x3F) ||| 0x80)
    else md5.digest (data ns ++ name) i

/-- The UUID that the specification builds from a 20-byte digest `d`: its first 16
bytes, with byte 6 replaced by `(d[6] & 0x0F) | 0x50` and byte 8 by
`(d[8] & 0x3F) | 0x80`. -/
def version5_of_digest (d : Fin 20 → uint8_t) : uuid :=
  fun i =>
    if i = 6 then to_u8 (((d 6).val &&& 0x0F) ||| 0x50)
    else if i = 8 then to_u8 (((d 8).val &&& 0x3F) ||| 0x80)
    else d ⟨i.val, by omega⟩

/-- The result that the specification prescribes for `version5`: built from the
SHA-1 digest of the namespace bytes followed by the name bytes. -/
def version5_spec (sha1 : SHA1) (ns : uuid) (name : List uint8_t) : uuid :=
  version5_of_digest (sha1.digest (data ns ++ name))

/-- An MD5 collaborator that meets the incremental contract: the context is the
sequence absorbed so far and the digest is made of its first 16 bytes. -/
def md5_first_bytes : MD5 where
  CTX := List uint8_t
  Init := []
  Update := fun c x => c ++ x
  Final := fun c i => c.getD i.val 0

/-- A SHA-1 collaborator that meets the incremental contract: the context is the
number of bytes absorbed so far and the digest is that number, most significant
byte first. -/
def sha1_byte_count : SHA1 where
  CTX := Nat
  Init := 0
  Update := fun c x => c + x.length
  Final := fun c i => byte_of c (19 - i.val)

/-- A lowercase hexadecimal digit: `0`-`9` or `a`-`f`. -/
def is_lower_hex (c : Char) : Bool :=
  (decide ('0' ≤ c) && decide (c ≤ '9')) || (decide ('a' ≤ c) && decide (c ≤ 'f'))

/-- The lowercase hexadecimal digit of the high nibble of a byte. -/
def hi (b : uint8_t) : Char := Nat.digitChar (b.val / 16)

/-- The lowercase hexadecimal digit of the low nibble of a byte. -/
def lo (b : uint8_t) : Char := Nat.digitChar (b.val % 16)

/-! ## The MD5 collaborator -/

/-- Modelled from the spec: `md5.h` and the MD5 implementation are not among the
sources.  The table `T` of RFC 1321, `T[i] = floor(2^32 * abs(sin(i + 1)))`. -/
def md5_T : List Nat :=
  [
   0xd76aa478, 0xe8c7b756, 0x242070db, 0xc1bdceee,
   0xf57c0faf, 0x4787c62a, 0xa8304613, 0xfd469501,
   0x698098d8, 0x8b44f7af, 0xffff5bb1, 0x895cd7be,
   0x6b901122, 0xfd987193, 0xa679438e, 0x49b40821,
   0xf61e2562, 0xc040b340, 0x265e5a51, 0xe9b6c7aa,
   0xd62f105d, 0x02441453, 0xd8a1e681, 0xe7d3fbc8,
   0x21e1cde6, 0xc33707d6, 0xf4d50d87, 0x455a14ed,
   0xa9e3e905, 0xfcefa3f8, 0x676f02d9, 0x8d2a4c8a,
   0xfffa3942, 0x8771f681, 0x6d9d6122, 0xfde5380c,
   0xa4beea44, 0x4bdecfa9, 0xf6bb4b60, 0xbebfbc70,
   0x289b7ec6, 0xeaa127fa, 0xd4ef3085, 0x04881d05,
   0xd9d4d039, 0xe6db99e5, 0x1fa27cf8, 0xc4ac5665,
   0xf4292244, 0x432aff97, 0xab9423a7, 0xfc93a039,
   0x655b59c3, 0x8f0ccc92, 0xffeff47d, 0x85845dd1,
   0x6fa87e4f, 0xfe2ce6e0, 0xa3014314, 0x4e0811a1,
   0xf7537e82, 0xbd3af235, 0x2ad7d2bb, 0xeb86d391]

/-- Modelled from the spec: the MD5 implementation is not among the sources.  The
rotation amount of step `i` in RFC 1321: four amounts per round, used in turn. -/
def md5_shift (i : Nat) : Nat :=
  ([[7, 12, 17, 22], [5, 9, 14, 20], [4, 11, 16, 23], [6, 10, 15, 21]].getD (i / 16) []).getD
    (i % 4) 0

/-- Modelled from the spec: the MD5 implementation is not among the sources.
Rotation of a 32-bit word to the left by `c` bits. -/
def rotl32 (x c : Nat) : Nat := ((x <<< c) ||| (x >>> (32 - c))) % 2 ^ 32

/-- Modelled from the spec: the MD5 implementation is not among the sources.
Complement of a 32-bit word. -/
def not32 (x : Nat) : Nat := x ^^^ 0xFFFFFFFF

/-- Modelled from the spec: the MD5 implementation is not among the sources.  The
padding of RFC 1321: a byte `0x80`, zero bytes up to 56 modulo 64, then the length of
the message in bits as a 64-bit integer, least significant byte first. -/
def md5_pad (msg : List uint8_t) : List uint8_t :=
  msg ++ [(0x80 : uint8_t)] ++ List.replicate ((119 - msg.length % 64) % 64) (0 : uint8_t) ++
    (List.range 8).map (fun k => to_u8 ((8 * msg.length % 2 ^ 64) >>> (8 * k)))

/-- Modelled from the spec: the MD5 implementation is not among the sources.  Word
`g` of a 64-byte block, least significant byte first. -/
def md5_word (block : List uint8_t) (g : Nat) : Nat :=
  (block.getD (4 * g) 0).val + (block.getD (4 * g + 1) 0).val * 2 ^ 8 +
    (block.getD (4 * g + 2) 0).val * 2 ^ 16 + (block.getD (4 * g + 3) 0).val * 2 ^ 24

/-- Modelled from the spec: the MD5 implementation is not among the sources.  Step
`i` (0 to 63) of the four rounds of RFC 1321 on the state `(A, B, C, D)`. -/
def md5_step (block : List uint8_t) (st : Nat × Nat × Nat × Nat) (i : Nat) :
    Nat × Nat × Nat × Nat :=
  let (a, b, c, d) := st
  let f :=
    if i < 16 then (b &&& c) ||| (not32 b &&& d)
    else if i < 32 then (d &&& b) ||| (not32 d &&& c)
    else if i < 48 then b ^^^ c ^^^ d
    else c ^^^ (b ||| not32 d)
  let g :=
    if i < 16 then i
    else if i < 32 then (5 * i + 1) % 16
    else if i < 48 then (3 * i + 5) % 16
    else (7 * i) % 16
  let x := (f + a + md5_T.getD i 0 + md5_word block g) % 2 ^ 32
  (d, (b + rotl32 x (md5_shift i)) % 2 ^ 32, b, c)

/-- Modelled from the spec: the MD5 implementation is not among the sources.  The
processing of one 64-byte block: 64 steps, then the addition of the previous state. -/
def md5_block (st : Nat × Nat × Nat × Nat) (block : List uint8_t) : Nat × Nat × Nat × Nat :=
  let r := (List.range 64).foldl (md5_step block) st
  ((st.1 + r.1) % 2 ^ 32, (st.2.1 + r.2.1) % 2 ^ 32, (st.2.2.1 + r.2.2.1) % 2 ^ 32,
    (st.2.2.2 + r.2.2.2) % 2 ^ 32)

/-- Modelled from the spec: the MD5 implementation is not among the sources.  The
first `n` blocks of 64 bytes of a byte sequence. -/
def md5_blocks : Nat → List uint8_t → List (List uint8_t)
  | 0, _ => []
  | n + 1, l => l.take 64 :: md5_blocks n (l.drop 64)

/-- Modelled from the spec: the MD5 implementation is not among the sources.  The
four bytes of a 32-bit word, least significant byte first. -/
def md5_word_bytes (w : Nat) : List uint8_t :=
  [to_u8 w, to_u8 (w >>> 8), to_u8 (w >>> 16), to_u8 (w >>> 24)]

/-- Modelled from the spec: the MD5 implementation is not among the sources.  The
16-byte MD5 digest of a message, as RFC 1321 defines it. -/
def md5_sum (msg : List uint8_t) : List uint8_t :=
  let padded := md5_pad msg
  let st := (md5_blocks (padded.length / 64) padded).foldl md5_block
    (0x67452301, 0xefcdab89, 0x98badcfe, 0x10325476)
  md5_word_bytes st.1 ++ md5_word_bytes st.2.1 ++ md5_word_bytes st.2.2.1 ++
    md5_word_bytes st.2.2.2

/-- Modelled from the spec: `md5.h` and the MD5 implementation are not among the
sources.  MD5 behind the interface `MD5_Init`, `MD5_Update`, `MD5_Final`: the context
holds the bytes absorbed so far and the final step writes their MD5 digest. -/
def md5_rfc1321 : MD5 where
  CTX := List uint8_t
  Init := []
  Update := fun c x => c ++ x
  Final := fun c i => (md5_sum c).getD i.val 0

/-- The bytes of an ASCII text. -/
def bytes_of_text (s : String) : List uint8_t := s.toList.map (fun c => to_u8 c.toNat)

/-! ## Bytes of integers -/

theorem byte_of_push (a : Nat) (b : uint8_t) (k : Nat) :
    byte_of (a * 256 + b.val) k = if k = 0 then b else byte_of a (k - 1) := by
  have hb := b.isLt
  cases k with
  | zero =>
    apply Fin.ext
    simp [byte_of, to_u8]
    omega
  | succ k =>
    apply Fin.ext
    simp only [byte_of, to_u8, Nat.shiftRight_eq_div_pow, Nat.add_sub_cancel]
    have h2 : 2 ^ (8 * (k + 1)) = 256 * 2 ^ (8 * k) := by
      rw [Nat.mul_add, Nat.pow_add]; ring
    rw [h2, ← Nat.div_div_eq_div_mul]
    have h3 : (a * 256 + b.val) / 256 = a := by omega
    rw [h3]
    simp

theorem byte_of_val (b : uint8_t) (k : Nat) :
    byte_of b.val k = if k = 0 then b else 0 := by
  have h := byte_of_push 0 b k
  simp only [Nat.zero_mul, Nat.zero_add] at h
  rw [h]
  split
  · rfl
  · apply Fin.ext
    simp [byte_of, to_u8]

theorem byte_of_bswap2 (v : Nat) (k : Nat) (hk : k < 2) :
    byte_of (bswap 2 v) k = byte_of v (1 - k) := by
  simp only [bswap, List.range, List.range.loop, List.foldl]
  interval_cases k <;> simp [byte_of_push, byte_of_val]

theorem byte_of_bswap4 (v : Nat) (k : Nat) (hk : k < 4) :
    byte_of (bswap 4 v) k = byte_of v (3 - k) := by
  simp only [bswap, List.range, List.range.loop, List.foldl]
  interval_cases k <;> simp [byte_of_push, byte_of_val]

theorem byte_of_bswap8 (v : Nat) (k : Nat) (hk : k < 8) :
    byte_of (bswap 8 v) k = byte_of v (7 - k) := by
  simp only [bswap, List.range, List.range.loop, List.foldl]
  interval_cases k <;> simp [byte_of_push, byte_of_val]

/-- A host-order store of `htobe w v` leaves the bytes of `v` in memory most
significant first, whatever the byte order of the host. -/
theorem store_htobe (le : Bool) (w : Nat) (hw : w = 2 ∨ w = 4 ∨ w = 8) (buf : parent_t)
    (off v : Nat) (i : Fin 16) :
    store le w buf off (htobe le w v) i =
      if off ≤ i.val ∧ i.val < off + w then byte_of v (w - 1 - (i.val - off)) else buf i := by
  unfold store htobe
  split
  · cases le
    · simp
    · simp only [if_true]
      rcases hw with rfl | rfl | rfl
      · exact byte_of_bswap2 v _ (by omega)
      · exact byte_of_bswap4 v _ (by omega)
      · exact byte_of_bswap8 v _ (by omega)
  · rfl

theorem mask_clock_seq (x : Nat) : (x &&& 0x3FFF) ||| 0x8000 = x % 0x4000 + 0x8000 := by
  have h1 : x &&& 0x3FFF = x % 2 ^ 14 := Nat.and_pow_two_sub_one_eq_mod x 14
  have h2 : x % 2 ^ 14 < 2 ^ 15 := by omega
  have h3 := Nat.mul_add_lt_is_or h2 1
  rw [h1, Nat.or_comm]
  simp only [Nat.mul_one] at h3
  rw [show (0x8000 : Nat) = 2 ^ 15 by norm_num, ← h3]
  norm_num
  omega

/-- The sixteen bytes that the five-field constructor leaves in the buffer. -/
theorem uuid_fields_eq (le : Bool) (raw : parent_t) (time_low : uint32_t) (time_mid : uint16_t)
    (time_hi_and_version : uint16_t) (clock_seq : uint16_t) (node : uint64_t) :
    uuid_fields le raw time_low time_mid time_hi_and_version clock_seq node =
      of_bytes [to_u8 (time_low.val / 2 ^ 24), to_u8 (time_low.val / 2 ^ 16),
        to_u8 (time_low.val / 2 ^ 8), to_u8 time_low.val,
        to_u8 (time_mid.val / 2 ^ 8), to_u8 time_mid.val,
        to_u8 (time_hi_and_version.val / 2 ^ 8), to_u8 time_hi_and_version.val,
        to_u8 (((clock_seq.val &&& 0x3FFF) ||| 0x8000) / 2 ^ 8),
        to_u8 ((clock_seq.val &&& 0x3FFF) ||| 0x8000),
        to_u8 (node.val % 2 ^ 48 / 2 ^ 40), to_u8 (node.val % 2 ^ 48 / 2 ^ 32),
        to_u8 (node.val % 2 ^ 48 / 2 ^ 24), to_u8 (node.val % 2 ^ 48 / 2 ^ 16),
        to_u8 (node.val % 2 ^ 48 / 2 ^ 8), to_u8 (node.val % 2 ^ 48)] := by
  funext i
  simp only [uuid_fields]
  rw [store_htobe le 2 (by simp), store_htobe le 8 (by simp), store_htobe le 2 (by simp),
    store_htobe le 2 (by simp), store_htobe le 4 (by simp)]
  fin_cases i <;>
    simp [of_bytes, byte_of, to_u8, to_u16, Nat.shiftRight_eq_div_pow, mask_clock_seq] <;> omega

/-! ## Comparison -/

/-- C1: `compare` returns 0 for two UUIDs that differ in byte 0: at the first
differing index `n = 0` both `-n` and `n` are 0, so `operator==` holds although
the sixteen bytes are not all equal. -/
theorem compare_zero_although_byte_0_differs :
    compare (of_bytes [1]) uuid_default = 0 ∧
      operator_eq (of_bytes [1]) uuid_default = true ∧
      (of_bytes [1]) 0 ≠ uuid_default 0 ∧
      ¬ (compare (of_bytes [1]) uuid_default = 0 ↔ ∀ i, (of_bytes [1]) i = uuid_default i) := by
  have h : compare (of_bytes [1]) uuid_default = 0 := by
    rw [compare, compare_from]
    simp [of_bytes, uuid_default, to_int]
  have h0 : (of_bytes [1]) 0 ≠ uuid_default 0 := by
    simp [of_bytes, uuid_default]
  refine ⟨h, ?_, h0, ?_⟩
  · simp [operator_eq, h]
  · intro hiff
    exact h0 (hiff.mp h 0)

/-- C2: the nil UUID precedes the UUID whose byte 0 is 1 in unsigned lexicographic
order, yet `compare` returns 0 and not a negative value, so `operator<` is false;
in the other direction it returns 0 and not a positive value. -/
theorem compare_sign_lost_at_byte_0 :
    lex_lt uuid_default (of_bytes [1]) ∧
      compare uuid_default (of_bytes [1]) = 0 ∧
      operator_lt uuid_default (of_bytes [1]) = false ∧
      compare (of_bytes [1]) uuid_default = 0 ∧
      operator_gt (of_bytes [1]) uuid_default = false := by
  have h1 : compare uuid_default (of_bytes [1]) = 0 := by
    rw [compare, compare_from]
    simp [of_bytes, uuid_default, to_int, size_t_neg]
  have h2 : compare (of_bytes [1]) uuid_default = 0 := by
    rw [compare, compare_from]
    simp [of_bytes, uuid_default, to_int]
  refine ⟨⟨0, ?_, ?_⟩, h1, ?_, h2, ?_⟩
  · intro j hj
    exact absurd hj (by simp)
  · simp [of_bytes, uuid_default]
  · simp [operator_lt, h1]
  · simp [operator_gt, h2]

/-! ## Constructors -/

/-- C3: whatever the byte order of the host and the previous content of the
buffer, the five-field constructor leaves `time_low` in bytes 0-3, `time_mid` in
bytes 4-5, `time_hi_and_version` in bytes 6-7 and `(clock_seq & 0x3FFF) | 0x8000`
in bytes 8-9, each most significant byte first, and the 48 least significant bits
of `node` in bytes 10-15; the two top bits of byte 8 are `10`, and the 16 upper
bits of `node` do not reach the result. -/
theorem uuid_fields_bytes (le : Bool) (raw : parent_t) (time_low : uint32_t)
    (time_mid : uint16_t) (time_hi_and_version : uint16_t) (clock_seq : uint16_t)
    (node : uint64_t) :
    uuid_fields le raw time_low time_mid time_hi_and_version clock_seq node =
      of_bytes [to_u8 (time_low.val / 2 ^ 24), to_u8 (time_low.val / 2 ^ 16),
        to_u8 (time_low.val / 2 ^ 8), to_u8 time_low.val,
        to_u8 (time_mid.val / 2 ^ 8), to_u8 time_mid.val,
        to_u8 (time_hi_and_version.val / 2 ^ 8), to_u8 time_hi_and_version.val,
        to_u8 (((clock_seq.val &&& 0x3FFF) ||| 0x8000) / 2 ^ 8),
        to_u8 ((clock_seq.val &&& 0x3FFF) ||| 0x8000),
        to_u8 (node.val % 2 ^ 48 / 2 ^ 40), to_u8 (node.val % 2 ^ 48 / 2 ^ 32),
        to_u8 (node.val % 2 ^ 48 / 2 ^ 24), to_u8 (node.val % 2 ^ 48 / 2 ^ 16),
        to_u8 (node.val % 2 ^ 48 / 2 ^ 8), to_u8 (node.val % 2 ^ 48)] ∧
    ((uuid_fields le raw time_low time_mid time_hi_and_version clock_seq node) 8).val / 64 = 2 ∧
    uuid_fields le raw time_low time_mid time_hi_and_version clock_seq node =
      uuid_fields le raw time_low time_mid time_hi_and_version clock_seq
        (to_u64 (node.val % 2 ^ 48)) := by
  refine ⟨uuid_fields_eq _ _ _ _ _ _ _, ?_, ?_⟩
  · rw [uuid_fields_eq, show (8 : Fin 16) = ⟨8, by decide⟩ from rfl]
    simp [of_bytes, to_u8, mask_clock_seq]
    omega
  · rw [uuid_fields_eq, uuid_fields_eq]
    have h : (to_u64 (node.val % 2 ^ 48)).val % 2 ^ 48 = node.val % 2 ^ 48 := by
      simp [to_u64]
      omega
    rw [h]

theorem or_shift_add (a i b : Nat) (hb : b < 2 ^ i) : a <<< i ||| b = a * 2 ^ i + b := by
  rw [Nat.shiftLeft_eq, Nat.mul_comm a, Nat.mul_add_lt_is_or hb]

theorem node_of_mac_val (m : Fin 6 → uint8_t) :
    (node_of_mac m).val = (m 0).val * 2 ^ 40 + (m 1).val * 2 ^ 32 + (m 2).val * 2 ^ 24 +
      (m 3).val * 2 ^ 16 + (m 4).val * 2 ^ 8 + (m 5).val := by
  have h0 := (m 0).isLt
  have h1 := (m 1).isLt
  have h2 := (m 2).isLt
  have h3 := (m 3).isLt
  have h4 := (m 4).isLt
  have h5 := (m 5).isLt
  unfold node_of_mac to_u64
  simp only [Nat.or_assoc]
  rw [or_shift_add (m 4).val 8 _ (by omega)]
  rw [or_shift_add (m 3).val 16 _ (by omega)]
  rw [or_shift_add (m 2).val 24 _ (by omega)]
  rw [or_shift_add (m 1).val 32 _ (by omega)]
  rw [or_shift_add (m 0).val 40 _ (by omega)]
  show (_ : Nat) % 2 ^ 64 = _
  omega

/-- On a little-endian host the 64-bit shift pushes the two bytes read past the end
of the array out of the word and leaves the six array bytes in bytes 2 to 7. -/
theorem load64_shift_le (m : Fin 6 → uint8_t) (past : Fin 2 → uint8_t) :
    (to_u64 (load64 true (mac_memory m past) <<< 16)).val =
      ((((((((m 5).val * 256 + (m 4).val) * 256 + (m 3).val) * 256 + (m 2).val) * 256 +
        (m 1).val) * 256 + (m 0).val) * 256 + (0 : uint8_t).val) * 256 + (0 : uint8_t).val) := by
  have h0 := (m 0).isLt
  have h1 := (m 1).isLt
  have h2 := (m 2).isLt
  have h3 := (m 3).isLt
  have h4 := (m 4).isLt
  have h5 := (m 5).isLt
  simp [to_u64, load64, List.range, List.range.loop, mac_memory, Nat.shiftLeft_eq]
  omega

/-- On a little-endian host the array overload of `version1` agrees with the
integer overload at the node `m[0]<<40 | ... | m[5]`, whatever the two bytes that
follow the array in memory. -/
theorem version1_array_little_endian (raw : parent_t) (past : Fin 2 → uint8_t)
    (timestamp : uint64_t) (clock_seq : uint16_t) (m : Fin 6 → uint8_t) :
    version1_array true raw past timestamp clock_seq m =
      version1 true raw timestamp clock_seq (node_of_mac m) := by
  have h0 := (m 0).isLt
  have h1 := (m 1).isLt
  have h2 := (m 2).isLt
  have h3 := (m 3).isLt
  have h4 := (m 4).isLt
  have h5 := (m 5).isLt
  have key : to_u64 (betoh true 8 (to_u64 (load64 true (mac_memory m past) <<< 16)).val) =
      node_of_mac m := by
    apply Fin.ext
    rw [node_of_mac_val, load64_shift_le]
    simp only [betoh, if_true, bswap, List.range, List.range.loop, List.foldl]
    simp only [byte_of_push, byte_of_val]
    simp [to_u64]
    omega
  simp only [version1_array, version1, key]

/-- C4: on a big-endian host the array overload of `version1` does not produce the
bytes of the integer overload.  For the array `01 23 45 67 89 ab` of the repository
test (timestamp 0, clock sequence 0, zero bytes after the array) the load yields
`0x0123456789ab0000`, the shift drops the two leading array bytes, `be64toh` is the
identity, and bytes 10-15 of the result are `89 ab 00 00 00 00`, whereas the integer
overload at the node `0x0123456789ab` yields `01 23 45 67 89 ab`. -/
theorem version1_array_big_endian_host :
    version1_array false uuid_default (fun _ => 0) (to_u64 0) (to_u16 0)
        (mac_bytes [0x01, 0x23, 0x45, 0x67, 0x89, 0xAB]) =
      of_bytes [0, 0, 0, 0, 0, 0, 0x10, 0, 0x80, 0, 0x89, 0xAB, 0, 0, 0, 0] ∧
    version1 false uuid_default (to_u64 0) (to_u16 0)
        (node_of_mac (mac_bytes [0x01, 0x23, 0x45, 0x67, 0x89, 0xAB])) =
      of_bytes [0, 0, 0, 0, 0, 0, 0x10, 0, 0x80, 0, 0x01, 0x23, 0x45, 0x67, 0x89, 0xAB] := by
  decide

/-! ## Variant and version of the named constructors -/

theorem variant_of_top_bits (u : uuid) (h : (u 8).val / 64 = 2) :
    variant u = variant_t.variant_rfc4122 := by
  have h5 : (u 8).val / 32 ≠ 7 := by omega
  have h6 : (u 8).val / 32 ≠ 6 := by omega
  simp [variant, Nat.shiftRight_eq_div_pow, h, h5, h6]

set_option maxRecDepth 100000 in
theorem high_nibble (b : uint8_t) : (b.val &&& 0xF0) >>> 4 = b.val / 16 := by
  revert b
  decide

theorem version_of_nibble (u : uuid) (v : uint8_t) (h : (u 6).val / 16 = v.val) :
    version u = v := by
  apply Fin.ext
  have hv := v.isLt
  simp [version, high_nibble, to_u8, h]

set_option maxRecDepth 100000 in
theorem patch_variant (b : uint8_t) : (to_u8 ((b.val &&& 0x3F) ||| 0x80)).val / 64 = 2 := by
  revert b
  decide

set_option maxRecDepth 100000 in
theorem patch_version (b : uint8_t) :
    (to_u8 ((b.val &&& 0x0F) ||| 0x30)).val / 16 = 3 ∧
    (to_u8 ((b.val &&& 0x0F) ||| 0x40)).val / 16 = 4 ∧
    (to_u8 ((b.val &&& 0x0F) ||| 0x50)).val / 16 = 5 := by
  revert b
  decide

theorem uuid_time_variant_version (le : Bool) (raw : parent_t) (time : uint64_t)
    (clock_seq : uint16_t) (node : uint64_t) :
    variant (uuid_time le raw time version_time_based clock_seq node) =
        variant_t.variant_rfc4122 ∧
      version (uuid_time le raw time version_time_based clock_seq node) =
        version_time_based := by
  constructor
  · apply variant_of_top_bits
    rw [uuid_time, uuid_fields_eq, show (8 : Fin 16) = ⟨8, by decide⟩ from rfl]
    simp [of_bytes, to_u8, mask_clock_seq]
    omega
  · apply version_of_nibble
    rw [uuid_time, uuid_fields_eq, show (6 : Fin 16) = ⟨6, by decide⟩ from rfl]
    have h1 : ((time.val >>> 48) &&& 0x0FFF) ||| ((to_u16 version_time_based.val).val <<< 12) =
        1 * 2 ^ 12 + (time.val >>> 48) % 2 ^ 12 := by
      have e : (time.val >>> 48) &&& 0x0FFF = (time.val >>> 48) % 2 ^ 12 :=
        Nat.and_pow_two_sub_one_eq_mod _ 12
      rw [e, Nat.or_comm]
      exact or_shift_add 1 12 _ (Nat.mod_lt _ (by norm_num))
    rw [h1]
    simp [of_bytes, to_u8, to_u16, version_time_based]
    omega

theorem fill_random_eq (raw : parent_t) (draws : Fin 16 → Fin 256) :
    fill_random raw draws = fun n => to_u8 (draws n).val := by
  funext i
  have hr : List.finRange 16 = [0, 1, 2, 3, 4, 5, 6, 7, 8, 9, 10, 11, 12, 13, 14, 15] := by
    decide
  simp only [fill_random, hr, List.foldl]
  fin_cases i <;> simp [Function.update]

/-- C5: every UUID produced by `version1` (either overload), `version3`, `version4`
and `version5` has the RFC 4122 variant and the version of its constructor (1, 3,
4 and 5), whatever the host byte order, the previous content of the buffer, the
digest collaborators and the values drawn from the random source. -/
theorem named_constructors_variant_version (le : Bool) (raw : parent_t)
    (past : Fin 2 → uint8_t) (timestamp : uint64_t) (clock_seq : uint16_t) (node : uint64_t)
    (mac : Fin 6 → uint8_t) (md5 : MD5) (sha1 : SHA1) (ns : uuid) (name : List uint8_t)
    (draws : Fin 16 → Fin 256) :
    (variant (version1 le raw timestamp clock_seq node) = variant_t.variant_rfc4122 ∧
      version (version1 le raw timestamp clock_seq node) = version_time_based) ∧
    (variant (version1_array le raw past timestamp clock_seq mac) = variant_t.variant_rfc4122 ∧
      version (version1_array le raw past timestamp clock_seq mac) = version_time_based) ∧
    (variant (version3 md5 ns name) = variant_t.variant_rfc4122 ∧
      version (version3 md5 ns name) = version_name_based_md5) ∧
    (variant (version4 raw draws) = variant_t.variant_rfc4122 ∧
      version (version4 raw draws) = version_random) ∧
    (variant (version5 sha1 ns name) = variant_t.variant_rfc4122 ∧
      version (version5 sha1 ns name) = version_name_based_sha1) := by
  refine ⟨uuid_time_variant_version _ _ _ _ _, uuid_time_variant_version _ _ _ _ _,
    ⟨?_, ?_⟩, ⟨?_, ?_⟩, ⟨?_, ?_⟩⟩
  · apply variant_of_top_bits
    simp only [version3, Function.update, show ((8 : Fin 16) = 6) = False from by decide]
    simp [patch_variant]
  · apply version_of_nibble
    simp only [version3, Function.update]
    simp [(patch_version _).1, version_name_based_md5]
    rfl
  · apply variant_of_top_bits
    simp only [version4, Function.update, show ((8 : Fin 16) = 6) = False from by decide]
    simp [patch_variant]
  · apply version_of_nibble
    simp only [version4, Function.update]
    simp [(patch_version _).2.1, version_random]
    rfl
  · apply variant_of_top_bits
    simp only [version5, Function.update, show ((8 : Fin 16) = 6) = False from by decide]
    simp [patch_variant]
  · apply version_of_nibble
    simp only [version5, Function.update]
    simp [(patch_version _).2.2, version_name_based_sha1]
    rfl

/-! ## Name-based constructors -/

set_option maxRecDepth 100000 in
theorem patch_bits (b : uint8_t) :
    ((to_u8 ((b.val &&& 0x0F) ||| 0x30)).val = (b.val &&& 0x0F) ||| 0x30 ∧
      (to_u8 ((b.val &&& 0x0F) ||| 0x30)).val % 16 = b.val % 16) ∧
    ((to_u8 ((b.val &&& 0x0F) ||| 0x50)).val = (b.val &&& 0x0F) ||| 0x50 ∧
      (to_u8 ((b.val &&& 0x0F) ||| 0x50)).val % 16 = b.val % 16) ∧
    ((to_u8 ((b.val &&& 0x3F) ||| 0x80)).val = (b.val &&& 0x3F) ||| 0x80 ∧
      (to_u8 ((b.val &&& 0x3F) ||| 0x80)).val % 64 = b.val % 64) := by
  revert b
  decide

theorem data_length (u : uuid) : (data u).length = 16 := by
  simp [data]

theorem md5_first_bytes_streaming : md5_first_bytes.streaming := by
  intro c x y
  exact List.append_assoc c x y

theorem sha1_byte_count_streaming : sha1_byte_count.streaming := by
  have h : ∀ (c : Nat) (x y : List uint8_t), c + x.length + y.length = c + (x ++ y).length := by
    intro c x y
    rw [List.length_append, Nat.add_assoc]
  exact h

theorem version3_eq_spec (md5 : MD5) (hs : md5.streaming) (ns : uuid) (name : List uint8_t) :
    version3 md5 ns name = version3_spec md5 ns name := by
  funext i
  simp only [version3, version3_spec, MD5.digest, hs md5.Init (data ns) name, Function.update]
  by_cases h6 : i = 6
  · subst h6
    simp
  · by_cases h8 : i = 8
    · subst h8
      simp
    · simp [h6, h8]

theorem version5_eq_spec (sha1 : SHA1) (hs : sha1.streaming) (ns : uuid) (name : List uint8_t)
    (hlen : name.length < 2 ^ 32) :
    version5 sha1 ns name = version5_spec sha1 ns name := by
  have h1 : (data ns).take (to_u32 16).val = data ns := by
    apply List.take_of_length_le
    rw [data_length]
    decide
  have h2 : name.take (to_u32 name.length).val = name := by
    apply List.take_of_length_le
    show name.length ≤ name.length % 2 ^ 32
    rw [Nat.mod_eq_of_lt hlen]
  funext i
  simp only [version5, version5_spec, version5_of_digest, SHA1.digest, SHA1_Update_size_t, h1,
    h2, hs sha1.Init (data ns) name, Function.update]
  by_cases h6 : i = 6
  · subst h6
    simp
    rfl
  · by_cases h8 : i = 8
    · subst h8
      simp
      rfl
    · simp [h6, h8]

/-- C6: when the MD5 collaborator meets the incremental contract, `version3(ns, name)`
is the MD5 digest `d` of the 16 namespace bytes followed by the name bytes, taken
verbatim except that byte 6 is `(d[6] & 0x0F) | 0x30` and byte 8 is
`(d[8] & 0x3F) | 0x80`; the low nibble of byte 6 and the low six bits of byte 8 are
those of the digest. -/
theorem version3_digest (md5 : MD5) (hs : md5.streaming) (ns : uuid) (name : List uint8_t) :
    version3 md5 ns name = version3_spec md5 ns name ∧
    (data ns).length = 16 ∧
    ((version3 md5 ns name) 6).val = ((md5.digest (data ns ++ name) 6).val &&& 0x0F) ||| 0x30 ∧
    ((version3 md5 ns name) 8).val = ((md5.digest (data ns ++ name) 8).val &&& 0x3F) ||| 0x80 ∧
    ((version3 md5 ns name) 6).val % 16 = (md5.digest (data ns ++ name) 6).val % 16 ∧
    ((version3 md5 ns name) 8).val % 64 = (md5.digest (data ns ++ name) 8).val % 64 := by
  rw [version3_eq_spec md5 hs]
  simp only [version3_spec, if_true, show ((8 : Fin 16) = 6) = False from by decide, if_false]
  exact ⟨trivial, data_length ns, (patch_bits _).1.1, (patch_bits _).2.2.1, (patch_bits _).1.2,
    (patch_bits _).2.2.2⟩

/-- C6, instance: the theorem applied to the collaborator `md5_first_bytes`, the nil
namespace and the name `01 02 03`. -/
theorem version3_digest_witness :
    md5_first_bytes.streaming ∧
    (version3 md5_first_bytes uuid_default [1, 2, 3] =
        version3_spec md5_first_bytes uuid_default [1, 2, 3] ∧
      (data uuid_default).length = 16 ∧
      ((version3 md5_first_bytes uuid_default [1, 2, 3]) 6).val =
        ((md5_first_bytes.digest (data uuid_default ++ [1, 2, 3]) 6).val &&& 0x0F) ||| 0x30 ∧
      ((version3 md5_first_bytes uuid_default [1, 2, 3]) 8).val =
        ((md5_first_bytes.digest (data uuid_default ++ [1, 2, 3]) 8).val &&& 0x3F) ||| 0x80 ∧
      ((version3 md5_first_bytes uuid_default [1, 2, 3]) 6).val % 16 =
        (md5_first_bytes.digest (data uuid_default ++ [1, 2, 3]) 6).val % 16 ∧
      ((version3 md5_first_bytes uuid_default [1, 2, 3]) 8).val % 64 =
        (md5_first_bytes.digest (data uuid_default ++ [1, 2, 3]) 8).val % 64) :=
  ⟨md5_first_bytes_streaming,
    version3_digest md5_first_bytes md5_first_bytes_streaming uuid_default [1, 2, 3]⟩

theorem version5_byte_count_15 (ns : uuid) (name : List uint8_t) (hlen : name.length = 2 ^ 32) :
    (version5 sha1_byte_count ns name) 15 = 0 ∧
      (version5_spec sha1_byte_count ns name) 15 = 1 := by
  have h1 : (data ns).take (to_u32 16).val = data ns := by
    apply List.take_of_length_le
    rw [data_length]
    decide
  have h2 : name.take (to_u32 name.length).val = [] := by
    have : (to_u32 name.length).val = 0 := by
      show name.length % 2 ^ 32 = 0
      rw [hlen, Nat.mod_self]
    rw [this, List.take_zero]
  constructor
  · simp only [version5, SHA1_Update_size_t, h1, h2, Function.update,
      show ((15 : Fin 16) = 6) = False from by decide,
      show ((15 : Fin 16) = 8) = False from by decide]
    show byte_of (0 + (data ns).length + ([] : List uint8_t).length) (19 - 15) = 0
    rw [data_length]
    decide
  · simp only [version5_spec, version5_of_digest, SHA1.digest,
      show ((15 : Fin 16) = 6) = False from by decide,
      show ((15 : Fin 16) = 8) = False from by decide, if_false]
    show byte_of (0 + (data ns ++ name).length) (19 - 15) = 1
    rw [List.length_append, data_length, hlen]
    decide

/-- A name of exactly `2 ^ 32` bytes is ignored altogether: with any collaborator
that meets the incremental contract, `version5` returns what the specification
prescribes for the empty name. -/
theorem version5_ignores_name_of_4GiB (sha1 : SHA1) (hs : sha1.streaming) (ns : uuid)
    (name : List uint8_t) (hlen : name.length = 2 ^ 32) :
    version5 sha1 ns name = version5_spec sha1 ns [] := by
  have h1 : (data ns).take (to_u32 16).val = data ns := by
    apply List.take_of_length_le
    rw [data_length]
    decide
  have h2 : name.take (to_u32 name.length).val = [] := by
    have h0 : (to_u32 name.length).val = 0 := by
      show name.length % 2 ^ 32 = 0
      rw [hlen, Nat.mod_self]
    rw [h0, List.take_zero]
  funext i
  simp only [version5, version5_spec, version5_of_digest, SHA1.digest, SHA1_Update_size_t, h1,
    h2, hs sha1.Init (data ns) [], Function.update]
  by_cases h6 : i = 6
  · subst h6
    simp
    rfl
  · by_cases h8 : i = 8
    · subst h8
      simp
      rfl
    · simp [h6, h8]

/-- C7: for a name of `2 ^ 32` bytes the `size_t` length becomes 0 when it is
converted to the `uint32_t` parameter of `SHA1_Update`, so no name byte is absorbed;
with the collaborator `sha1_byte_count`, which meets the incremental contract, the
result is not the patched digest of the namespace bytes followed by the name bytes
(byte 15 is 0, that of the prescribed result is 1). -/
theorem version5_name_of_4GiB :
    sha1_byte_count.streaming ∧
    version5 sha1_byte_count uuid_default (List.replicate (2 ^ 32) 0) ≠
      version5_spec sha1_byte_count uuid_default (List.replicate (2 ^ 32) 0) := by
  refine ⟨sha1_byte_count_streaming, fun h => ?_⟩
  have h15 := version5_byte_count_15 uuid_default (List.replicate (2 ^ 32) 0)
    (List.length_replicate _ _)
  have e := congrFun h 15
  rw [h15.1, h15.2] at e
  exact absurd e (by decide)

/-- When the SHA-1 collaborator meets the incremental contract and the name is
shorter than `2 ^ 32` bytes, `version5(ns, name)` is made of the first 16 bytes of
the SHA-1 digest `d` of the 16 namespace bytes followed by the name bytes, except that
byte 6 is `(d[6] & 0x0F) | 0x50` and byte 8 is `(d[8] & 0x3F) | 0x80`; digest bytes
16-19 do not reach the result. -/
theorem version5_digest (sha1 : SHA1) (hs : sha1.streaming) (ns : uuid) (name : List uint8_t)
    (hlen : name.length < 2 ^ 32) :
    version5 sha1 ns name = version5_spec sha1 ns name ∧
    (data ns).length = 16 ∧
    ((version5 sha1 ns name) 6).val = ((sha1.digest (data ns ++ name) 6).val &&& 0x0F) ||| 0x50 ∧
    ((version5 sha1 ns name) 8).val = ((sha1.digest (data ns ++ name) 8).val &&& 0x3F) ||| 0x80 ∧
    (∀ d e : Fin 20 → uint8_t, (∀ i : Fin 16, d ⟨i.val, by omega⟩ = e ⟨i.val, by omega⟩) →
      version5_of_digest d = version5_of_digest e) := by
  rw [version5_eq_spec sha1 hs ns name hlen]
  refine ⟨rfl, data_length ns, ?_, ?_, ?_⟩
  · simp only [version5_spec, version5_of_digest, if_true]
    exact (patch_bits _).2.1.1
  · simp only [version5_spec, version5_of_digest, if_true, if_false,
      show ((8 : Fin 16) = 6) = False from by decide]
    exact (patch_bits _).2.2.1
  · intro d e hde
    funext i
    have h6 : d 6 = e 6 := hde 6
    have h8 : d 8 = e 8 := hde 8
    simp only [version5_of_digest, h6, h8, hde i]

/-- The theorem `version5_digest` applied to the collaborator `sha1_byte_count`, the
nil namespace and the name `01 02 03`. -/
theorem version5_digest_witness :
    sha1_byte_count.streaming ∧ ([1, 2, 3] : List uint8_t).length < 2 ^ 32 ∧
    (version5 sha1_byte_count uuid_default [1, 2, 3] =
        version5_spec sha1_byte_count uuid_default [1, 2, 3] ∧
      (data uuid_default).length = 16 ∧
      ((version5 sha1_byte_count uuid_default [1, 2, 3]) 6).val =
        ((sha1_byte_count.digest (data uuid_default ++ [1, 2, 3]) 6).val &&& 0x0F) ||| 0x50 ∧
      ((version5 sha1_byte_count uuid_default [1, 2, 3]) 8).val =
        ((sha1_byte_count.digest (data uuid_default ++ [1, 2, 3]) 8).val &&& 0x3F) ||| 0x80 ∧
      (∀ d e : Fin 20 → uint8_t, (∀ i : Fin 16, d ⟨i.val, by omega⟩ = e ⟨i.val, by omega⟩) →
        version5_of_digest d = version5_of_digest e)) :=
  ⟨sha1_byte_count_streaming, by decide,
    version5_digest sha1_byte_count sha1_byte_count_streaming uuid_default [1, 2, 3] (by decide)⟩

/-! ## Renderings -/

set_option maxRecDepth 100000 in
theorem hex_at_hi (b : uint8_t) : hex_at ((b.val &&& 0xF0) >>> 4) = some (hi b) := by
  revert b
  decide

set_option maxRecDepth 100000 in
theorem hex_at_lo (b : uint8_t) : hex_at (b.val &&& 0x0F) = some (lo b) := by
  revert b
  decide

set_option maxRecDepth 100000 in
theorem hi_ne_hyphen (b : uint8_t) : (hi b = '-') = False := by
  revert b
  decide

set_option maxRecDepth 100000 in
theorem lo_ne_hyphen (b : uint8_t) : (lo b = '-') = False := by
  revert b
  decide

theorem hi_bne_hyphen (b : uint8_t) : (hi b != '-') = true := by
  simp [bne_iff_ne, hi_ne_hyphen]

theorem lo_bne_hyphen (b : uint8_t) : (lo b != '-') = true := by
  simp [bne_iff_ne, lo_ne_hyphen]

set_option maxRecDepth 100000 in
theorem hi_lower_hex (b : uint8_t) : is_lower_hex (hi b) = true := by
  revert b
  decide

set_option maxRecDepth 100000 in
theorem lo_lower_hex (b : uint8_t) : is_lower_hex (lo b) = true := by
  revert b
  decide

theorem to_hex_loop_step (u : uuid) (res : List Char) (n m : Nat) (hn : n < 32)
    (hm : m < 16) (hlen : n + 1 < res.length) :
    to_hex_loop u res n m =
      to_hex_loop u ((res.set n (hi (u ⟨m, hm⟩))).set (n + 1) (lo (u ⟨m, hm⟩)))
        (n + 2) (m + 1) := by
  conv_lhs => rw [to_hex_loop]
  have h1 : n < res.length := by omega
  simp [hn, uuid_at, hm, str_set, hex_at_hi, hex_at_lo, h1, hlen]

theorem to_hex_loop_exit (u : uuid) (res : List Char) (n m : Nat) (hn : 32 ≤ n) :
    to_hex_loop u res n m = some res := by
  rw [to_hex_loop]
  simp
  omega

/-- The loop of `to_hex` runs sixteen times, never throws, and leaves the two
digits of each byte in order. -/
theorem to_hex_eq (u : uuid) : to_hex u = some
    [hi (u 0), lo (u 0), hi (u 1), lo (u 1), hi (u 2), lo (u 2), hi (u 3), lo (u 3),
     hi (u 4), lo (u 4), hi (u 5), lo (u 5), hi (u 6), lo (u 6), hi (u 7), lo (u 7),
     hi (u 8), lo (u 8), hi (u 9), lo (u 9), hi (u 10), lo (u 10), hi (u 11), lo (u 11),
     hi (u 12), lo (u 12), hi (u 13), lo (u 13), hi (u 14), lo (u 14), hi (u 15),
     lo (u 15)] := by
  unfold to_hex string_of_size
  simp only [List.replicate]
  iterate 16
    rw [to_hex_loop_step u _ _ _ (by decide) (by decide) (by simp)]
    simp only [List.set, Nat.reduceAdd]
  rw [to_hex_loop_exit u _ _ _ (by decide)]
  rfl

theorem to_string_loop_digit (u : uuid) (res : List Char) (n m : Nat) (hn : n < 36)
    (hm : m < 16) (hlen : n + 1 < res.length) (hc : res[n]? = some (Char.ofNat 0)) :
    to_string_loop u res n m =
      to_string_loop u ((res.set n (hi (u ⟨m, hm⟩))).set (n + 1) (lo (u ⟨m, hm⟩)))
        (n + 2) (m + 1) := by
  conv_lhs => rw [to_string_loop]
  have h1 : n < res.length := by omega
  have hc0 : Char.ofNat 0 ≠ '-' := by decide
  simp [hn, uuid_at, hm, str_set, hex_at_hi, hex_at_lo, h1, hlen, hc, hc0]

theorem to_string_loop_hyphen (u : uuid) (res : List Char) (n m : Nat) (hn : n < 36)
    (hc : res[n]? = some '-') :
    to_string_loop u res n m = to_string_loop u res (n + 1) m := by
  conv_lhs => rw [to_string_loop]
  simp [hn, hc]

theorem to_string_loop_exit (u : uuid) (res : List Char) (n m : Nat) (hn : 36 ≤ n) :
    to_string_loop u res n m = some res := by
  rw [to_string_loop]
  simp
  omega

/-- The loop of `to_string` never throws and leaves the digits of the sixteen bytes
around the four hyphens. -/
theorem to_string_eq (u : uuid) : to_string u = some
    [hi (u 0), lo (u 0), hi (u 1), lo (u 1), hi (u 2), lo (u 2), hi (u 3), lo (u 3), '-',
     hi (u 4), lo (u 4), hi (u 5), lo (u 5), '-', hi (u 6), lo (u 6), hi (u 7), lo (u 7), '-',
     hi (u 8), lo (u 8), hi (u 9), lo (u 9), '-', hi (u 10), lo (u 10), hi (u 11), lo (u 11),
     hi (u 12), lo (u 12), hi (u 13), lo (u 13), hi (u 14), lo (u 14), hi (u 15),
     lo (u 15)] := by
  have h0 : to_string u = to_string_loop u
      (((((string_of_size 36 (Char.ofNat 0)).set 23 '-').set 18 '-').set 13 '-').set 8 '-')
      0 0 := by
    simp [to_string, str_set, string_of_size]
  rw [h0]
  unfold string_of_size
  simp only [List.replicate, List.set]
  have step := fun res n m hn hm hl hc => to_string_loop_digit u res n m hn hm hl hc
  have skip := fun res n m hn hc => to_string_loop_hyphen u res n m hn hc
  iterate 4
    rw [step _ _ _ (by decide) (by decide) (by simp) rfl]
    simp only [List.set, Nat.reduceAdd]
  rw [skip _ _ _ (by decide) rfl]
  simp only [Nat.reduceAdd]
  iterate 2
    rw [step _ _ _ (by decide) (by decide) (by simp) rfl]
    simp only [List.set, Nat.reduceAdd]
  rw [skip _ _ _ (by decide) rfl]
  simp only [Nat.reduceAdd]
  iterate 2
    rw [step _ _ _ (by decide) (by decide) (by simp) rfl]
    simp only [List.set, Nat.reduceAdd]
  rw [skip _ _ _ (by decide) rfl]
  simp only [Nat.reduceAdd]
  iterate 2
    rw [step _ _ _ (by decide) (by decide) (by simp) rfl]
    simp only [List.set, Nat.reduceAdd]
  rw [skip _ _ _ (by decide) rfl]
  simp only [Nat.reduceAdd]
  iterate 6
    rw [step _ _ _ (by decide) (by decide) (by simp) rfl]
    simp only [List.set, Nat.reduceAdd]
  rw [to_string_loop_exit u _ _ _ (by decide)]
  rfl

theorem to_msguid_loop_digit (u : uuid) (res : List Char) (n m : Nat) (hn : n < 37)
    (hm : m < 16) (hlen : n + 1 < res.length) (hc : res[n]? = some (Char.ofNat 0)) :
    to_msguid_loop u res n m =
      to_msguid_loop u ((res.set n (hi (u ⟨m, hm⟩))).set (n + 1) (lo (u ⟨m, hm⟩)))
        (n + 2) (m + 1) := by
  conv_lhs => rw [to_msguid_loop]
  have h1 : n < res.length := by omega
  have hc0 : Char.ofNat 0 ≠ '-' := by decide
  simp [hn, uuid_at, hm, str_set, hex_at_hi, hex_at_lo, h1, hlen, hc, hc0]

theorem to_msguid_loop_hyphen (u : uuid) (res : List Char) (n m : Nat) (hn : n < 37)
    (hc : res[n]? = some '-') :
    to_msguid_loop u res n m = to_msguid_loop u res (n + 1) m := by
  conv_lhs => rw [to_msguid_loop]
  simp [hn, hc]

theorem to_msguid_loop_exit (u : uuid) (res : List Char) (n m : Nat) (hn : 37 ≤ n) :
    to_msguid_loop u res n m = some res := by
  rw [to_msguid_loop]
  simp
  omega

/-- The loop of `to_msguid` never throws and leaves the digits of the sixteen bytes
around the four hyphens, between the two braces. -/
theorem to_msguid_eq (u : uuid) : to_msguid u = some
    ['\x7b', hi (u 0), lo (u 0), hi (u 1), lo (u 1), hi (u 2), lo (u 2), hi (u 3), lo (u 3), '-',
     hi (u 4), lo (u 4), hi (u 5), lo (u 5), '-', hi (u 6), lo (u 6), hi (u 7), lo (u 7), '-',
     hi (u 8), lo (u 8), hi (u 9), lo (u 9), '-', hi (u 10), lo (u 10), hi (u 11), lo (u 11),
     hi (u 12), lo (u 12), hi (u 13), lo (u 13), hi (u 14), lo (u 14), hi (u 15),
     lo (u 15), '\x7d'] := by
  have h0 : to_msguid u = to_msguid_loop u
      (((((((string_of_size 38 (Char.ofNat 0)).set 24 '-').set 19 '-').set 14 '-').set 9
        '-').set 0 '\x7b').set 37 '\x7d') 1 0 := by
    simp [to_msguid, str_set, string_of_size]
  rw [h0]
  unfold string_of_size
  simp only [List.replicate, List.set]
  have step := fun res n m hn hm hl hc => to_msguid_loop_digit u res n m hn hm hl hc
  have skip := fun res n m hn hc => to_msguid_loop_hyphen u res n m hn hc
  iterate 4
    rw [step _ _ _ (by decide) (by decide) (by simp) rfl]
    simp only [List.set, Nat.reduceAdd]
  rw [skip _ _ _ (by decide) rfl]
  simp only [Nat.reduceAdd]
  iterate 2
    rw [step _ _ _ (by decide) (by decide) (by simp) rfl]
    simp only [List.set, Nat.reduceAdd]
  rw [skip _ _ _ (by decide) rfl]
  simp only [Nat.reduceAdd]
  iterate 2
    rw [step _ _ _ (by decide) (by decide) (by simp) rfl]
    simp only [List.set, Nat.reduceAdd]
  rw [skip _ _ _ (by decide) rfl]
  simp only [Nat.reduceAdd]
  iterate 2
    rw [step _ _ _ (by decide) (by decide) (by simp) rfl]
    simp only [List.set, Nat.reduceAdd]
  rw [skip _ _ _ (by decide) rfl]
  simp only [Nat.reduceAdd]
  iterate 6
    rw [step _ _ _ (by decide) (by decide) (by simp) rfl]
    simp only [List.set, Nat.reduceAdd]
  rw [to_msguid_loop_exit u _ _ _ (by decide)]
  rfl

/-- C8: for every UUID `to_string()` returns a string of length 36 that has `-`
exactly at indices 8, 13, 18 and 23 and a lowercase hexadecimal digit everywhere
else; deleting the hyphens yields `to_hex()`, and the five groups are the digits of
bytes 0-3, 4-5, 6-7, 8-9 and 10-15 in order. -/
theorem to_string_format (u : uuid) :
    ∃ s h : List Char, to_string u = some s ∧ to_hex u = some h ∧
      s.length = 36 ∧
      (∀ i : Fin 36, s.getD i.val ' ' = '-' ↔
        (i.val = 8 ∨ i.val = 13 ∨ i.val = 18 ∨ i.val = 23)) ∧
      (∀ i : Fin 36, s.getD i.val ' ' = '-' ∨ is_lower_hex (s.getD i.val ' ') = true) ∧
      s.filter (fun c => c != '-') = h ∧
      s = h.take 8 ++ ['-'] ++ (h.drop 8).take 4 ++ ['-'] ++ (h.drop 12).take 4 ++ ['-'] ++
        (h.drop 16).take 4 ++ ['-'] ++ h.drop 20 := by
  refine ⟨_, _, to_string_eq u, to_hex_eq u, rfl, ?_, ?_, ?_, rfl⟩
  · intro i
    fin_cases i <;> simp [hi_ne_hyphen, lo_ne_hyphen]
  · intro i
    fin_cases i <;> simp [hi_lower_hex, lo_lower_hex]
  · simp [List.filter_cons, hi_bne_hyphen, lo_bne_hyphen]

/-- C9: for every UUID `to_hex()` returns a string of exactly 32 characters, all of
them lowercase hexadecimal digits, in which character `2i` is the digit of the high
nibble of byte `i` and character `2i+1` the digit of its low nibble. -/
theorem to_hex_format (u : uuid) :
    ∃ h : List Char, to_hex u = some h ∧ h.length = 32 ∧
      h.all is_lower_hex = true ∧
      ∀ i : Fin 16,
        h.getD (2 * i.val) ' ' = Nat.digitChar ((u i).val / 16) ∧
        h.getD (2 * i.val + 1) ' ' = Nat.digitChar ((u i).val % 16) := by
  refine ⟨_, to_hex_eq u, rfl, ?_, ?_⟩
  · simp [hi_lower_hex, lo_lower_hex]
  · intro i
    fin_cases i <;> simp [hi, lo]

/-- C10: for every UUID `to_msguid()`, computed by its own loop, returns an opening
brace, then the string of `to_string()`, then a closing brace: 38 characters. -/
theorem to_msguid_braces (u : uuid) :
    ∃ s g : List Char, to_string u = some s ∧ to_msguid u = some g ∧
      g = "\x7b".toList ++ s ++ "\x7d".toList ∧ g.length = 38 := by
  exact ⟨_, _, to_string_eq u, to_msguid_eq u, rfl, rfl⟩

/-! ## Word and time constructors -/

theorem and_255 (x : Nat) : x &&& 0xFF = x % 256 :=
  Nat.and_pow_two_sub_one_eq_mod x 8

/-- The sixteen bytes that `uuid(msb, lsb)` leaves in the buffer. -/
theorem uuid_msb_lsb_eq (le : Bool) (raw : parent_t) (msb lsb : uint64_t) :
    uuid_msb_lsb le raw msb lsb =
      of_bytes [to_u8 (msb.val / 2 ^ 56), to_u8 (msb.val / 2 ^ 48), to_u8 (msb.val / 2 ^ 40),
        to_u8 (msb.val / 2 ^ 32), to_u8 (msb.val / 2 ^ 24), to_u8 (msb.val / 2 ^ 16),
        to_u8 (msb.val / 2 ^ 8), to_u8 msb.val,
        to_u8 (lsb.val / 2 ^ 56), to_u8 (lsb.val / 2 ^ 48), to_u8 (lsb.val / 2 ^ 40),
        to_u8 (lsb.val / 2 ^ 32), to_u8 (lsb.val / 2 ^ 24), to_u8 (lsb.val / 2 ^ 16),
        to_u8 (lsb.val / 2 ^ 8), to_u8 lsb.val] := by
  funext i
  simp only [uuid_msb_lsb]
  rw [store_htobe le 8 (by simp), store_htobe le 8 (by simp)]
  fin_cases i <;> simp [of_bytes, byte_of, to_u8, Nat.shiftRight_eq_div_pow]

/-- C11: whatever the byte order of the host and the previous content of the
buffer, `uuid(msb, lsb)` holds `msb` in bytes 0-7 and `lsb` in bytes 8-15, most
significant byte first: byte `i` is `(msb >> (8*(7-i))) & 0xFF` and byte `8+i` is
`(lsb >> (8*(7-i))) & 0xFF`.  In particular
`uuid(0x0001020304050607, 0x08090A0B0C0D0E0F)` has bytes 0, 1, ..., 15 and renders as
`00010203-0405-0607-0809-0a0b0c0d0e0f`. -/
theorem uuid_msb_lsb_bytes (le : Bool) (raw : parent_t) (msb lsb : uint64_t) :
    (∀ i : Fin 8, ((uuid_msb_lsb le raw msb lsb) ⟨i.val, by omega⟩).val =
      (msb.val >>> (8 * (7 - i.val))) &&& 0xFF) ∧
    (∀ i : Fin 8, ((uuid_msb_lsb le raw msb lsb) ⟨8 + i.val, by omega⟩).val =
      (lsb.val >>> (8 * (7 - i.val))) &&& 0xFF) ∧
    uuid_msb_lsb le raw (to_u64 0x0001020304050607) (to_u64 0x08090A0B0C0D0E0F) =
      of_bytes [0, 1, 2, 3, 4, 5, 6, 7, 8, 9, 10, 11, 12, 13, 14, 15] ∧
    to_string (uuid_msb_lsb le raw (to_u64 0x0001020304050607) (to_u64 0x08090A0B0C0D0E0F)) =
      some "00010203-0405-0607-0809-0a0b0c0d0e0f".toList := by
  refine ⟨?_, ?_, ?_, ?_⟩
  · intro i
    rw [uuid_msb_lsb_eq]
    fin_cases i <;> simp [of_bytes, to_u8, and_255, Nat.shiftRight_eq_div_pow]
  · intro i
    rw [uuid_msb_lsb_eq]
    fin_cases i <;> simp [of_bytes, to_u8, and_255, Nat.shiftRight_eq_div_pow]
  · rw [uuid_msb_lsb_eq]
    decide
  · rw [uuid_msb_lsb_eq, to_string_eq]
    decide

theorem time_hi_and_version_val (time : uint64_t) (v : version_t) :
    ((time.val >>> 48) &&& 0x0FFF) ||| ((to_u16 v.val).val <<< 12) =
      v.val * 2 ^ 12 + time.val / 2 ^ 48 % 2 ^ 12 := by
  have hv := v.isLt
  have e : (time.val >>> 48) &&& 0x0FFF = (time.val >>> 48) % 2 ^ 12 :=
    Nat.and_pow_two_sub_one_eq_mod _ 12
  have e2 : (to_u16 v.val).val = v.val := by
    show v.val % 2 ^ 16 = v.val
    omega
  rw [e, e2, Nat.or_comm, Nat.shiftRight_eq_div_pow]
  exact or_shift_add v.val 12 _ (Nat.mod_lt _ (by norm_num))

/-- The sixteen bytes that `uuid(time, version, clock_seq, node)` leaves in the
buffer. -/
theorem uuid_time_eq (le : Bool) (raw : parent_t) (time : uint64_t) (v : version_t)
    (clock_seq : uint16_t) (node : uint64_t) :
    uuid_time le raw time v clock_seq node =
      of_bytes [to_u8 (time.val / 2 ^ 24), to_u8 (time.val / 2 ^ 16),
        to_u8 (time.val / 2 ^ 8), to_u8 time.val,
        to_u8 (time.val / 2 ^ 40), to_u8 (time.val / 2 ^ 32),
        to_u8 ((v.val * 2 ^ 12 + time.val / 2 ^ 48 % 2 ^ 12) / 2 ^ 8),
        to_u8 (v.val * 2 ^ 12 + time.val / 2 ^ 48 % 2 ^ 12),
        to_u8 (((clock_seq.val &&& 0x3FFF) ||| 0x8000) / 2 ^ 8),
        to_u8 ((clock_seq.val &&& 0x3FFF) ||| 0x8000),
        to_u8 (node.val % 2 ^ 48 / 2 ^ 40), to_u8 (node.val % 2 ^ 48 / 2 ^ 32),
        to_u8 (node.val % 2 ^ 48 / 2 ^ 24), to_u8 (node.val % 2 ^ 48 / 2 ^ 16),
        to_u8 (node.val % 2 ^ 48 / 2 ^ 8), to_u8 (node.val % 2 ^ 48)] := by
  have e1 : time.val &&& 0xFFFFFFFF = time.val % 2 ^ 32 :=
    Nat.and_pow_two_sub_one_eq_mod _ 32
  have e2 : (time.val >>> 32) &&& 0xFFFF = (time.val >>> 32) % 2 ^ 16 :=
    Nat.and_pow_two_sub_one_eq_mod _ 16
  rw [uuid_time, uuid_fields_eq, time_hi_and_version_val, e1, e2]
  funext i
  fin_cases i <;>
    simp [of_bytes, to_u8, to_u16, to_u32, Nat.shiftRight_eq_div_pow] <;> omega

/-- C12: for every version `v` of the enumeration (0 to 5), whatever the byte order
of the host and the previous content of the buffer, `uuid(time, v, clock_seq, node)`
holds bits 0-31 of `time` in bytes 0-3, bits 32-47 in bytes 4-5 and the 16-bit value
`(v << 12) | (bits 48-59 of time)` in bytes 6-7, each most significant byte first;
`version()` of the result is `v`, and bits 60-63 of `time` do not reach the result. -/
theorem uuid_time_bytes (le : Bool) (raw : parent_t) (time : uint64_t) (v : version_t)
    (clock_seq : uint16_t) (node : uint64_t) (hv : v.val ≤ 5) :
    uuid_time le raw time v clock_seq node =
      of_bytes [to_u8 (time.val % 2 ^ 32 / 2 ^ 24), to_u8 (time.val % 2 ^ 32 / 2 ^ 16),
        to_u8 (time.val % 2 ^ 32 / 2 ^ 8), to_u8 (time.val % 2 ^ 32),
        to_u8 (time.val / 2 ^ 32 % 2 ^ 16 / 2 ^ 8), to_u8 (time.val / 2 ^ 32 % 2 ^ 16),
        to_u8 (((v.val <<< 12) ||| (time.val / 2 ^ 48 % 2 ^ 12)) / 2 ^ 8),
        to_u8 ((v.val <<< 12) ||| (time.val / 2 ^ 48 % 2 ^ 12)),
        to_u8 (((clock_seq.val &&& 0x3FFF) ||| 0x8000) / 2 ^ 8),
        to_u8 ((clock_seq.val &&& 0x3FFF) ||| 0x8000),
        to_u8 (node.val % 2 ^ 48 / 2 ^ 40), to_u8 (node.val % 2 ^ 48 / 2 ^ 32),
        to_u8 (node.val % 2 ^ 48 / 2 ^ 24), to_u8 (node.val % 2 ^ 48 / 2 ^ 16),
        to_u8 (node.val % 2 ^ 48 / 2 ^ 8), to_u8 (node.val % 2 ^ 48)] ∧
    version (uuid_time le raw time v clock_seq node) = v ∧
    uuid_time le raw time v clock_seq node =
      uuid_time le raw (to_u64 (time.val % 2 ^ 60)) v clock_seq node := by
  have hor : (v.val <<< 12) ||| (time.val / 2 ^ 48 % 2 ^ 12) =
      v.val * 2 ^ 12 + time.val / 2 ^ 48 % 2 ^ 12 :=
    or_shift_add v.val 12 _ (Nat.mod_lt _ (by norm_num))
  refine ⟨?_, ?_, ?_⟩
  · rw [uuid_time_eq, hor]
    funext i
    fin_cases i <;> simp [of_bytes, to_u8] <;> omega
  · apply version_of_nibble
    rw [uuid_time_eq, show (6 : Fin 16) = ⟨6, by decide⟩ from rfl]
    simp [of_bytes, to_u8]
    omega
  · rw [uuid_time_eq, uuid_time_eq]
    funext i
    fin_cases i <;> simp [of_bytes, to_u8, to_u64] <;> omega

/-- C12, instance: the theorem applied on a little-endian host to the time
`0x0607040500010203` of the repository test, the version 5, the clock sequence
`0x0809` and the node `0x0A0B0C0D0E0F`. -/
theorem uuid_time_bytes_witness :
    version_name_based_sha1.val ≤ 5 ∧
    (uuid_time true uuid_default (to_u64 0x0607040500010203)
        version_name_based_sha1 (to_u16 0x0809) (to_u64 0x0A0B0C0D0E0F) =
      of_bytes [to_u8 ((to_u64 0x0607040500010203).val % 2 ^ 32 / 2 ^ 24),
        to_u8 ((to_u64 0x0607040500010203).val % 2 ^ 32 / 2 ^ 16),
        to_u8 ((to_u64 0x0607040500010203).val % 2 ^ 32 / 2 ^ 8),
        to_u8 ((to_u64 0x0607040500010203).val % 2 ^ 32),
        to_u8 ((to_u64 0x0607040500010203).val / 2 ^ 32 % 2 ^ 16 / 2 ^ 8),
        to_u8 ((to_u64 0x0607040500010203).val / 2 ^ 32 % 2 ^ 16),
        to_u8 (((version_name_based_sha1.val <<< 12) |||
          ((to_u64 0x0607040500010203).val / 2 ^ 48 % 2 ^ 12)) / 2 ^ 8),
        to_u8 ((version_name_based_sha1.val <<< 12) |||
          ((to_u64 0x0607040500010203).val / 2 ^ 48 % 2 ^ 12)),
        to_u8 ((((to_u16 0x0809).val &&& 0x3FFF) ||| 0x8000) / 2 ^ 8),
        to_u8 (((to_u16 0x0809).val &&& 0x3FFF) ||| 0x8000),
        to_u8 ((to_u64 0x0A0B0C0D0E0F).val % 2 ^ 48 / 2 ^ 40),
        to_u8 ((to_u64 0x0A0B0C0D0E0F).val % 2 ^ 48 / 2 ^ 32),
        to_u8 ((to_u64 0x0A0B0C0D0E0F).val % 2 ^ 48 / 2 ^ 24),
        to_u8 ((to_u64 0x0A0B0C0D0E0F).val % 2 ^ 48 / 2 ^ 16),
        to_u8 ((to_u64 0x0A0B0C0D0E0F).val % 2 ^ 48 / 2 ^ 8),
        to_u8 ((to_u64 0x0A0B0C0D0E0F).val % 2 ^ 48)] ∧
      version (uuid_time true uuid_default (to_u64 0x0607040500010203)
        version_name_based_sha1 (to_u16 0x0809) (to_u64 0x0A0B0C0D0E0F)) = version_name_based_sha1 ∧
      uuid_time true uuid_default (to_u64 0x0607040500010203)
        version_name_based_sha1 (to_u16 0x0809) (to_u64 0x0A0B0C0D0E0F) =
        uuid_time true uuid_default (to_u64 ((to_u64 0x0607040500010203).val % 2 ^ 60))
          version_name_based_sha1 (to_u16 0x0809) (to_u64 0x0A0B0C0D0E0F)) :=
  ⟨by decide,
    uuid_time_bytes true uuid_default (to_u64 0x0607040500010203) version_name_based_sha1
      (to_u16 0x0809) (to_u64 0x0A0B0C0D0E0F) (by decide)⟩

/-! ## Constructors from byte sequences -/

/-- The loop of the template constructors overwrites the bytes from index `n` on with
the elements of the sequence, as far as they go, and leaves every other byte of the
buffer as it was. -/
theorem fill_from_apply (l : List uint8_t) (buf : parent_t) (n : Nat) (i : Fin 16) :
    fill_from buf l n i =
      if n ≤ i.val ∧ i.val - n < l.length then l.getD (i.val - n) 0 else buf i := by
  induction l generalizing buf n with
  | nil => simp [fill_from]
  | cons x rest ih =>
    rw [fill_from]
    by_cases h : n < 16
    · rw [dif_pos h, ih]
      by_cases hi : i.val = n
      · have hi2 : i = ⟨n, h⟩ := Fin.ext hi
        subst hi2
        simp
      · have hne : i ≠ ⟨n, h⟩ := fun e => hi (congrArg Fin.val e)
        by_cases hlt : n < i.val
        · have e1 : i.val - n = (i.val - (n + 1)) + 1 := by omega
          have c1 : (n + 1 ≤ i.val ∧ i.val - (n + 1) < rest.length) ↔
              (n ≤ i.val ∧ i.val - n < (x :: rest).length) := by
            simp only [List.length_cons]
            omega
          by_cases hc : n + 1 ≤ i.val ∧ i.val - (n + 1) < rest.length
          · rw [if_pos hc, if_pos (c1.mp hc), e1, List.getD_cons_succ]
          · rw [if_neg hc, if_neg (fun h2 => hc (c1.mpr h2)), Function.update_noteq hne]
        · have c2 : ¬ (n + 1 ≤ i.val ∧ i.val - (n + 1) < rest.length) := by omega
          have c3 : ¬ (n ≤ i.val ∧ i.val - n < (x :: rest).length) := by omega
          rw [if_neg c2, if_neg c3, Function.update_noteq hne]
    · rw [dif_neg h]
      have c3 : ¬ (n ≤ i.val ∧ i.val - n < (x :: rest).length) := by
        have hi := i.isLt
        omega
      rw [if_neg c3]

/-- The bytes of a UUID built by the container constructor: the elements of the
sequence as far as they go, then the previous content of the storage. -/
theorem uuid_container_apply (raw : parent_t) (s : List uint8_t) (i : Fin 16) :
    uuid_container raw s i = if i.val < s.length then s.getD i.val 0 else raw i := by
  simp [uuid_container, fill_from_apply]

/-- The bytes of a UUID built by the iterator-pair constructor. -/
theorem uuid_range_apply (raw : parent_t) (s : List uint8_t) (i : Fin 16) :
    uuid_range raw s i = if i.val < s.length then s.getD i.val 0 else raw i := by
  simp [uuid_range, fill_from_apply]

/-- C13: the template constructors have no initialiser for the base array, so the
bytes that a short sequence does not reach keep the previous content of the storage.
Built over storage that holds `aa` in every byte, the UUID of the empty sequence is
not nil, and the UUID of the sequence `01 02` has `aa`, not 0, in bytes 2-15. -/
theorem short_sequence_keeps_stale_bytes :
    uuid_container (of_bytes (List.replicate 16 0xAA)) [] = of_bytes (List.replicate 16 0xAA) ∧
    uuid_range (of_bytes (List.replicate 16 0xAA)) [] = of_bytes (List.replicate 16 0xAA) ∧
    nil (uuid_container (of_bytes (List.replicate 16 0xAA)) []) = false ∧
    nil (uuid_range (of_bytes (List.replicate 16 0xAA)) []) = false ∧
    uuid_container (of_bytes (List.replicate 16 0xAA)) [1, 2] =
      of_bytes (1 :: 2 :: List.replicate 14 0xAA) ∧
    uuid_range (of_bytes (List.replicate 16 0xAA)) [1, 2] =
      of_bytes (1 :: 2 :: List.replicate 14 0xAA) := by
  decide

/-- C14: a UUID built from a sequence of at least 16 bytes reads back the first 16
of them, whatever the storage held before: by the container constructor and by the
iterator-pair constructor for any such length (an over-length input is cut to its
first 16 bytes), and by the array constructor when the length is exactly 16. -/
theorem long_sequence_round_trip (raw : parent_t) (s : List uint8_t) (h : 16 ≤ s.length) :
    (∀ i : Fin 16, uuid_container raw s i = s.get ⟨i.val, Nat.lt_of_lt_of_le i.isLt h⟩) ∧
    (∀ i : Fin 16, uuid_range raw s i = s.get ⟨i.val, Nat.lt_of_lt_of_le i.isLt h⟩) ∧
    data (uuid_container raw s) = s.take 16 ∧
    data (uuid_range raw s) = s.take 16 ∧
    (∀ i : Fin 16, uuid_array (of_bytes s) i = s.get ⟨i.val, Nat.lt_of_lt_of_le i.isLt h⟩) ∧
    (∀ (arr : parent_t) (i : Fin 16), uuid_array arr i = arr i) := by
  have hget : ∀ i : Fin 16, s.getD i.val 0 = s.get ⟨i.val, Nat.lt_of_lt_of_le i.isLt h⟩ := by
    intro i
    have hi : i.val < s.length := Nat.lt_of_lt_of_le i.isLt h
    simp [List.getD, List.getElem?_eq_getElem hi]
  have hc : ∀ i : Fin 16, uuid_container raw s i = s.get ⟨i.val, Nat.lt_of_lt_of_le i.isLt h⟩ := by
    intro i
    rw [uuid_container_apply, if_pos (Nat.lt_of_lt_of_le i.isLt h), hget]
  have hr : ∀ i : Fin 16, uuid_range raw s i = s.get ⟨i.val, Nat.lt_of_lt_of_le i.isLt h⟩ := by
    intro i
    rw [uuid_range_apply, if_pos (Nat.lt_of_lt_of_le i.isLt h), hget]
  have htake : ∀ u : uuid, (∀ i : Fin 16, u i = s.get ⟨i.val, Nat.lt_of_lt_of_le i.isLt h⟩) →
      data u = s.take 16 := by
    intro u hu
    apply List.ext_getElem
    · simp [data, h]
    · intro n h1 h2
      have hn : n < 16 := by simpa [data] using h1
      show (List.ofFn u)[n] = (s.take 16)[n]
      rw [List.getElem_ofFn, List.getElem_take]
      exact hu ⟨n, hn⟩
  exact ⟨hc, hr, htake _ hc, htake _ hr, fun i => hget i, fun _ _ => rfl⟩

/-- C14, instance: the theorem applied to a sequence of 17 bytes, over storage that
holds zeros. -/
theorem long_sequence_round_trip_witness :
    16 ≤ ([0, 1, 2, 3, 4, 5, 6, 7, 8, 9, 10, 11, 12, 13, 14, 15, 16] : List uint8_t).length ∧
    ((∀ i : Fin 16, uuid_container uuid_default [0, 1, 2, 3, 4, 5, 6, 7, 8, 9, 10, 11, 12, 13, 14, 15, 16] i =
      ([0, 1, 2, 3, 4, 5, 6, 7, 8, 9, 10, 11, 12, 13, 14, 15, 16] : List uint8_t).get
        ⟨i.val, Nat.lt_of_lt_of_le i.isLt (by decide)⟩) ∧
    (∀ i : Fin 16, uuid_range uuid_default [0, 1, 2, 3, 4, 5, 6, 7, 8, 9, 10, 11, 12, 13, 14, 15, 16] i =
      ([0, 1, 2, 3, 4, 5, 6, 7, 8, 9, 10, 11, 12, 13, 14, 15, 16] : List uint8_t).get
        ⟨i.val, Nat.lt_of_lt_of_le i.isLt (by decide)⟩) ∧
    data (uuid_container uuid_default [0, 1, 2, 3, 4, 5, 6, 7, 8, 9, 10, 11, 12, 13, 14, 15, 16]) =
      ([0, 1, 2, 3, 4, 5, 6, 7, 8, 9, 10, 11, 12, 13, 14, 15, 16] : List uint8_t).take 16 ∧
    data (uuid_range uuid_default [0, 1, 2, 3, 4, 5, 6, 7, 8, 9, 10, 11, 12, 13, 14, 15, 16]) =
      ([0, 1, 2, 3, 4, 5, 6, 7, 8, 9, 10, 11, 12, 13, 14, 15, 16] : List uint8_t).take 16 ∧
    (∀ i : Fin 16, uuid_array (of_bytes [0, 1, 2, 3, 4, 5, 6, 7, 8, 9, 10, 11, 12, 13, 14, 15, 16]) i =
      ([0, 1, 2, 3, 4, 5, 6, 7, 8, 9, 10, 11, 12, 13, 14, 15, 16] : List uint8_t).get
        ⟨i.val, Nat.lt_of_lt_of_le i.isLt (by decide)⟩) ∧
    (∀ (arr : parent_t) (i : Fin 16), uuid_array arr i = arr i)) :=
  ⟨by decide,
    long_sequence_round_trip uuid_default [0, 1, 2, 3, 4, 5, 6, 7, 8, 9, 10, 11, 12, 13, 14, 15, 16]
      (by decide)⟩

/-! ## Order -/

theorem to_int_index (n : Nat) (h : n < 16) : to_int n = (n : Int) := by
  unfold to_int
  have h1 : n % 2 ^ 32 = n := Nat.mod_eq_of_lt (by omega)
  rw [h1, if_pos (by omega)]

theorem to_int_neg_index (n : Nat) (h : n < 16) : to_int (size_t_neg n) = -(n : Int) := by
  unfold to_int size_t_neg
  by_cases h0 : n = 0
  · subst h0
    decide
  · have h1 : (2 ^ 64 - n) % 2 ^ 64 % 2 ^ 32 = 2 ^ 32 - n := by omega
    rw [h1, if_neg (by omega)]
    omega

/-- The loop of `compare` at a byte where the two UUIDs differ. -/
theorem compare_from_differ (a b : uuid) (n : Nat) (h : n < 16) (hne : a ⟨n, h⟩ ≠ b ⟨n, h⟩) :
    compare_from a b n = if a ⟨n, h⟩ < b ⟨n, h⟩ then -(n : Int) else (n : Int) := by
  rw [compare_from, dif_pos h, if_pos hne, to_int_index n h, to_int_neg_index n h]

/-- The loop of `compare` at a byte where the two UUIDs agree. -/
theorem compare_from_agree (a b : uuid) (n : Nat) (h : n < 16) (heq : a ⟨n, h⟩ = b ⟨n, h⟩) :
    compare_from a b n = compare_from a b (n + 1) := by
  rw [compare_from, dif_pos h, if_neg (fun hne => hne heq)]

/-- The loop of `compare` past the last byte. -/
theorem compare_from_done (a b : uuid) (n : Nat) (h : 16 ≤ n) : compare_from a b n = 0 := by
  rw [compare_from, dif_neg (by omega)]

theorem compare_from_total (a b : uuid) (k n : Nat) (hk : 16 - n = k) :
    compare_from a b n ≤ 0 ∨ compare_from b a n ≤ 0 := by
  induction k generalizing n with
  | zero =>
    left
    rw [compare_from_done a b n (by omega)]
  | succ k ih =>
    have h : n < 16 := by omega
    by_cases heq : a ⟨n, h⟩ = b ⟨n, h⟩
    · rw [compare_from_agree a b n h heq, compare_from_agree b a n h heq.symm]
      exact ih (n + 1) (by omega)
    · by_cases hlt : a ⟨n, h⟩ < b ⟨n, h⟩
      · left
        rw [compare_from_differ a b n h heq, if_pos hlt]
        omega
      · right
        have hgt : b ⟨n, h⟩ < a ⟨n, h⟩ := by
          rcases lt_trichotomy (a ⟨n, h⟩) (b ⟨n, h⟩) with h1 | h1 | h1
          · exact absurd h1 hlt
          · exact absurd h1 heq
          · exact h1
        rw [compare_from_differ b a n h (fun e => heq e.symm), if_pos hgt]
        omega

/-- The relation `<=` of the comparison operators is total. -/
theorem operator_le_total (a b : uuid) : operator_le a b = true ∨ operator_le b a = true := by
  simp only [operator_le, decide_eq_true_eq, compare]
  exact compare_from_total a b 16 0 rfl

/-- C15: the relation `<=` is total but neither it nor `==` is transitive.  With
`a` the UUID whose byte 1 is 1, `b` the UUID whose byte 0 is 1 and `c` the nil UUID
(all other bytes 0), `compare` returns 0 for `(a, b)` and for `(b, c)`, whose first
difference is at byte 0, and 1 for `(a, c)`: `a <= b` and `b <= c` hold but
`a <= c` does not, and `a == b` and `b == c` hold but `a == c` does not. -/
theorem compare_not_transitive :
    compare (of_bytes [0, 1]) (of_bytes [1]) = 0 ∧
    compare (of_bytes [1]) uuid_default = 0 ∧
    compare (of_bytes [0, 1]) uuid_default = 1 ∧
    operator_le (of_bytes [0, 1]) (of_bytes [1]) = true ∧
    operator_le (of_bytes [1]) uuid_default = true ∧
    operator_le (of_bytes [0, 1]) uuid_default = false ∧
    operator_eq (of_bytes [0, 1]) (of_bytes [1]) = true ∧
    operator_eq (of_bytes [1]) uuid_default = true ∧
    operator_eq (of_bytes [0, 1]) uuid_default = false := by
  have h1 : compare (of_bytes [0, 1]) (of_bytes [1]) = 0 := by
    rw [compare, compare_from_differ _ _ 0 (by decide) (by decide)]
    decide
  have h2 : compare (of_bytes [1]) uuid_default = 0 := by
    rw [compare, compare_from_differ _ _ 0 (by decide) (by decide)]
    decide
  have h3 : compare (of_bytes [0, 1]) uuid_default = 1 := by
    rw [compare, compare_from_agree _ _ 0 (by decide) (by decide),
      compare_from_differ _ _ 1 (by decide) (by decide)]
    decide
  simp [operator_le, operator_eq, h1, h2, h3]

/-! ## Nil -/

/-- C16: `nil()` is true exactly when the sixteen bytes are zero; the
default-constructed UUID is nil; `operator bool` is the negation of `nil()`. -/
theorem nil_iff_all_bytes_zero (u : uuid) :
    (nil u = true ↔ ∀ i : Fin 16, u i = 0) ∧
    nil uuid_default = true ∧
    operator_bool u = !nil u ∧
    operator_bool uuid_default = false := by
  refine ⟨⟨?_, ?_⟩, by decide, rfl, by decide⟩
  · intro h i
    simp only [nil, Bool.and_eq_true, beq_iff_eq] at h
    fin_cases i <;> simp [h]
  · intro h
    simp [nil, h]

theorem not_nil_of_top_bits (u : uuid) (h : (u 8).val / 64 = 2) : nil u = false := by
  have h8 : u 8 ≠ 0 := by
    intro e
    rw [e] at h
    exact absurd h (by decide)
  simp [nil, h8]

theorem uuid_time_byte_8 (le : Bool) (raw : parent_t) (time : uint64_t) (v : version_t)
    (clock_seq : uint16_t) (node : uint64_t) :
    ((uuid_time le raw time v clock_seq node) 8).val / 64 = 2 := by
  rw [uuid_time, uuid_fields_eq, show (8 : Fin 16) = ⟨8, by decide⟩ from rfl]
  simp [of_bytes, to_u8, mask_clock_seq]
  omega

theorem version3_byte_8 (md5 : MD5) (ns : uuid) (name : List uint8_t) :
    ((version3 md5 ns name) 8).val / 64 = 2 := by
  simp only [version3, Function.update, show ((8 : Fin 16) = 6) = False from by decide]
  simp [patch_variant]

theorem version4_byte_8 (raw : parent_t) (draws : Fin 16 → Fin 256) :
    ((version4 raw draws) 8).val / 64 = 2 := by
  simp only [version4, Function.update, show ((8 : Fin 16) = 6) = False from by decide]
  simp [patch_variant]

theorem version5_byte_8 (sha1 : SHA1) (ns : uuid) (name : List uint8_t) :
    ((version5 sha1 ns name) 8).val / 64 = 2 := by
  simp only [version5, Function.update, show ((8 : Fin 16) = 6) = False from by decide]
  simp [patch_variant]

/-- C17: no named constructor produces the nil UUID: the results of `version1`
(either overload, any host byte order), `version3`, `version4` and `version5` have
`nil() == false`, whatever the inputs, the digests and the random draws. -/
theorem named_constructors_not_nil (le : Bool) (raw : parent_t) (past : Fin 2 → uint8_t)
    (timestamp : uint64_t) (clock_seq : uint16_t) (node : uint64_t) (mac : Fin 6 → uint8_t)
    (md5 : MD5) (sha1 : SHA1) (ns : uuid) (name : List uint8_t) (draws : Fin 16 → Fin 256) :
    nil (version1 le raw timestamp clock_seq node) = false ∧
    nil (version1_array le raw past timestamp clock_seq mac) = false ∧
    nil (version3 md5 ns name) = false ∧
    nil (version4 raw draws) = false ∧
    nil (version5 sha1 ns name) = false :=
  ⟨not_nil_of_top_bits _ (uuid_time_byte_8 _ _ _ _ _ _),
    not_nil_of_top_bits _ (uuid_time_byte_8 _ _ _ _ _ _),
    not_nil_of_top_bits _ (version3_byte_8 _ _ _),
    not_nil_of_top_bits _ (version4_byte_8 _ _),
    not_nil_of_top_bits _ (version5_byte_8 _ _ _)⟩

/-! ## Variant -/

set_option maxRecDepth 100000 in
theorem variant_cases (b : uint8_t) :
    (if b.val >>> 5 = 0x07 then variant_t.variant_future
      else if b.val >>> 5 = 0x06 then variant_t.variant_microsoft
      else if b.val >>> 6 = 0x02 then variant_t.variant_rfc4122
      else if b.val >>> 7 = 0x00 then variant_t.variant_ncs
      else variant_t.variant_unknown) =
    (if b.val / 128 = 0 then variant_t.variant_ncs
      else if b.val / 64 = 2 then variant_t.variant_rfc4122
      else if b.val / 32 = 6 then variant_t.variant_microsoft
      else variant_t.variant_future) ∧
    (b.val / 128 = 0 ∨ b.val / 64 = 2 ∨ b.val / 32 = 6 ∨ b.val / 32 = 7) := by
  revert b
  decide

/-- C18: `variant()` is a function of the top bits of byte 8 alone: `0xxxxxxx`
gives `variant_ncs`, `10xxxxxx` gives `variant_rfc4122`, `110xxxxx` gives
`variant_microsoft` and `111xxxxx` gives `variant_future`; the four cases cover every
byte, so the result is never `variant_unknown`. -/
theorem variant_by_top_bits (u : uuid) :
    variant u =
      (if (u 8).val / 128 = 0 then variant_t.variant_ncs
        else if (u 8).val / 64 = 2 then variant_t.variant_rfc4122
        else if (u 8).val / 32 = 6 then variant_t.variant_microsoft
        else variant_t.variant_future) ∧
    ((u 8).val / 128 = 0 ∨ (u 8).val / 64 = 2 ∨ (u 8).val / 32 = 6 ∨ (u 8).val / 32 = 7) ∧
    variant u ≠ variant_t.variant_unknown := by
  have h := variant_cases (u 8)
  have hv : variant u =
      (if (u 8).val / 128 = 0 then variant_t.variant_ncs
        else if (u 8).val / 64 = 2 then variant_t.variant_rfc4122
        else if (u 8).val / 32 = 6 then variant_t.variant_microsoft
        else variant_t.variant_future) := h.1
  refine ⟨hv, h.2, ?_⟩
  rw [hv]
  split
  · decide
  · split
    · decide
    · split <;> decide

/-! ## Namespace constants -/

/-- C19: the four namespace constants render as the strings of the specification. -/
theorem namespace_constants_render :
    to_string uuid_ns.dns = some "6ba7b810-9dad-11d1-80b4-00c04fd430c8".toList ∧
    to_string uuid_ns.url = some "6ba7b811-9dad-11d1-80b4-00c04fd430c8".toList ∧
    to_string uuid_ns.oid = some "6ba7b812-9dad-11d1-80b4-00c04fd430c8".toList ∧
    to_string uuid_ns.x500 = some "6ba7b814-9dad-11d1-80b4-00c04fd430c8".toList := by
  rw [to_string_eq, to_string_eq, to_string_eq, to_string_eq]
  decide

/-! ## Overloads of the name-based constructors -/

theorem string_of_c_str_terminated (name rest : List uint8_t) (h : ∀ b ∈ name, b ≠ 0) :
    string_of_c_str (name ++ 0 :: rest) = name := by
  unfold string_of_c_str
  induction name with
  | nil => simp
  | cons x xs ih =>
    have hx : x ≠ 0 := h x (List.mem_cons_self x xs)
    have hxs : ∀ b ∈ xs, b ≠ 0 := fun b hb => h b (List.mem_cons_of_mem x hb)
    simp [List.takeWhile_cons, hx, ih hxs]

theorem map_to_u8_val (l : List uint8_t) : l.map (fun b => to_u8 b.val) = l := by
  have h : (fun b : uint8_t => to_u8 b.val) = id := by
    funext b
    apply Fin.ext
    show b.val % 256 = b.val
    exact Nat.mod_eq_of_lt b.isLt
  rw [h, List.map_id]

theorem string_of_c_str_append_zero (name rest : List uint8_t) :
    string_of_c_str (name ++ 0 :: rest) = name.takeWhile (fun b => b != 0) := by
  unfold string_of_c_str
  induction name with
  | nil => simp
  | cons x xs ih =>
    by_cases hx : x = 0
    · subst hx
      simp
    · simp [List.takeWhile_cons, hx, ih]

/-- C20: every overload of `version3` and `version5` returns what the pointer and
length overload returns on the same bytes, for every name, zero bytes included: the
`std::string` and container overloads on the bytes of the container, and the
iterator-range overload of `version3` on the bytes of the range.  The C-string
overloads return what it returns on the bytes found before the first zero byte,
whatever follows the terminator in memory: on the whole name when the name has no
zero byte.  The result is a function of the namespace bytes and the name bytes
alone. -/
theorem name_based_overloads_agree (md5 : MD5) (sha1 : SHA1) (ns : uuid)
    (name rest : List uint8_t) :
    version3_string md5 ns name = version3 md5 ns name ∧
    version3_container md5 ns name = version3 md5 ns name ∧
    version3_range md5 ns name = version3 md5 ns name ∧
    version5_container sha1 ns name = version5 sha1 ns name ∧
    version3_c_str md5 ns (name ++ 0 :: rest) =
      version3 md5 ns (name.takeWhile (fun b => b != 0)) ∧
    version5_c_str sha1 ns (name ++ 0 :: rest) =
      version5 sha1 ns (name.takeWhile (fun b => b != 0)) ∧
    ((∀ b ∈ name, b ≠ 0) →
      version3_c_str md5 ns (name ++ 0 :: rest) = version3 md5 ns name ∧
      version5_c_str sha1 ns (name ++ 0 :: rest) = version5 sha1 ns name) ∧
    (∀ (ns2 : uuid) (name2 : List uint8_t), data ns2 = data ns → name2 = name →
      version3 md5 ns2 name2 = version3 md5 ns name ∧
      version5 sha1 ns2 name2 = version5 sha1 ns name) := by
  refine ⟨rfl, rfl, ?_, rfl, ?_, ?_, ?_, ?_⟩
  · simp only [version3_range, map_to_u8_val]
  · simp only [version3_c_str, version3_string, string_of_c_str_append_zero]
  · simp only [version5_c_str, version5_container, string_of_c_str_append_zero]
  · intro h
    constructor
    · simp only [version3_c_str, version3_string, string_of_c_str_terminated name rest h]
    · simp only [version5_c_str, version5_container, string_of_c_str_terminated name rest h]
  · intro ns2 name2 hns hname
    have e : ns2 = ns := List.ofFn_injective hns
    subst e
    subst hname
    exact ⟨rfl, rfl⟩

set_option maxRecDepth 100000 in
/-- C20, instance: the theorem applied to MD5, to the collaborator `sha1_byte_count`,
the namespace `uuid_ns::dns`, the name `41 42`, which has no zero byte, and the
memory `41 42 00 43`. -/
theorem name_based_overloads_agree_witness :
    (∀ b ∈ ([0x41, 0x42] : List uint8_t), b ≠ 0) ∧
    (version3_c_str md5_rfc1321 uuid_ns.dns ([0x41, 0x42] ++ 0 :: [0x43]) =
        version3 md5_rfc1321 uuid_ns.dns [0x41, 0x42] ∧
      version5_c_str sha1_byte_count uuid_ns.dns ([0x41, 0x42] ++ 0 :: [0x43]) =
        version5 sha1_byte_count uuid_ns.dns [0x41, 0x42]) :=
  ⟨by decide,
    (name_based_overloads_agree md5_rfc1321 sha1_byte_count uuid_ns.dns [0x41, 0x42]
      [0x43]).2.2.2.2.2.2.1 (by decide)⟩

set_option maxRecDepth 1000000 in
/-- With MD5 as the digest and the name `41 00 42`, which holds a zero byte, the
`std::string` overload hashes the three bytes and the C-string overload only the
first one: the two results differ. -/
theorem c_str_overload_stops_at_zero_byte :
    version3_string md5_rfc1321 uuid_ns.dns [0x41, 0x00, 0x42] =
      version3 md5_rfc1321 uuid_ns.dns [0x41, 0x00, 0x42] ∧
    version3_c_str md5_rfc1321 uuid_ns.dns ([0x41, 0x00, 0x42] ++ 0 :: []) =
      version3 md5_rfc1321 uuid_ns.dns [0x41] ∧
    version3 md5_rfc1321 uuid_ns.dns [0x41] ≠
      version3 md5_rfc1321 uuid_ns.dns [0x41, 0x00, 0x42] := by
  decide

/-! ## The value of `compare` -/

theorem compare_from_skip_agreeing (a b : uuid) (n : Nat) (hn : n ≤ 16)
    (h : ∀ j : Fin 16, j.val < n → a j = b j) :
    compare_from a b 0 = compare_from a b n := by
  induction n with
  | zero => rfl
  | succ k ih =>
    have hk : k < 16 := by omega
    rw [ih (by omega) (fun j hj => h j (by omega))]
    exact compare_from_agree a b k hk (h ⟨k, hk⟩ (by simp))

theorem compare_from_antisymmetric (a b : uuid) (k n : Nat) (hk : 16 - n = k) :
    compare_from a b n = -(compare_from b a n) := by
  induction k generalizing n with
  | zero =>
    rw [compare_from_done a b n (by omega), compare_from_done b a n (by omega)]
    rfl
  | succ k ih =>
    have h : n < 16 := by omega
    by_cases heq : a ⟨n, h⟩ = b ⟨n, h⟩
    · rw [compare_from_agree a b n h heq, compare_from_agree b a n h heq.symm]
      exact ih (n + 1) (by omega)
    · rw [compare_from_differ a b n h heq, compare_from_differ b a n h (fun e => heq e.symm)]
      by_cases hlt : a ⟨n, h⟩ < b ⟨n, h⟩
      · have hnot : ¬ b ⟨n, h⟩ < a ⟨n, h⟩ := not_lt_of_gt hlt
        rw [if_pos hlt, if_neg hnot]
      · have hgt : b ⟨n, h⟩ < a ⟨n, h⟩ := by
          rcases lt_trichotomy (a ⟨n, h⟩) (b ⟨n, h⟩) with h1 | h1 | h1
          · exact absurd h1 hlt
          · exact absurd h1 heq
          · exact h1
        rw [if_neg hlt, if_pos hgt]
        omega

/-- C22: `compare` returns the signed index of the first difference: 0 when the two
UUIDs agree on all 16 bytes, and otherwise, with `n` the smallest index where they
differ, `-n` when `a[n] < b[n]` and `n` when `a[n] > b[n]`. -/
theorem compare_first_difference (a b : uuid) :
    ((∀ i : Fin 16, a i = b i) → compare a b = 0) ∧
    (∀ n : Fin 16, (∀ j : Fin 16, j < n → a j = b j) → a n ≠ b n →
      (a n < b n → compare a b = -(n.val : Int)) ∧
      (b n < a n → compare a b = (n.val : Int))) := by
  constructor
  · intro h
    rw [compare, compare_from_skip_agreeing a b 16 (by omega) (fun j _ => h j)]
    exact compare_from_done a b 16 (by omega)
  · intro n hagree hdiff
    have hc : compare a b = if a n < b n then -(n.val : Int) else (n.val : Int) := by
      rw [compare, compare_from_skip_agreeing a b n.val (by omega) (fun j hj => hagree j hj)]
      exact compare_from_differ a b n.val n.isLt hdiff
    constructor
    · intro hlt
      rw [hc, if_pos hlt]
    · intro hgt
      rw [hc, if_neg (not_lt_of_gt hgt)]

/-- C22, instance: the theorem applied to the two UUIDs of the repository test of
`operator<`, which differ first at byte 8 (8 against 9): the result is -8. -/
theorem compare_first_difference_witness :
    compare (of_bytes [0, 1, 2, 3, 4, 5, 6, 7, 8, 9, 10, 11, 12, 13, 14, 15])
      (of_bytes [0, 1, 2, 3, 4, 5, 6, 7, 9, 9, 10, 11, 12, 13, 14, 15]) = -8 :=
  ((compare_first_difference (of_bytes [0, 1, 2, 3, 4, 5, 6, 7, 8, 9, 10, 11, 12, 13, 14, 15])
    (of_bytes [0, 1, 2, 3, 4, 5, 6, 7, 9, 9, 10, 11, 12, 13, 14, 15])).2 8
      (by decide) (by decide)).1 (by decide)

/-- C24: `compare` is antisymmetric, `a.compare(b) == -(b.compare(a))`, so `a < b`
holds exactly when `b > a` and `a <= b` exactly when `b >= a`. -/
theorem compare_antisymmetric (a b : uuid) :
    compare a b = -(compare b a) ∧
    operator_lt a b = operator_gt b a ∧
    operator_le a b = operator_ge b a := by
  have h : compare a b = -(compare b a) := compare_from_antisymmetric a b 16 0 rfl
  refine ⟨h, ?_, ?_⟩
  · simp only [operator_lt, operator_gt, h]
    congr 1
    apply propext
    constructor <;> intro h1 <;> omega
  · simp only [operator_le, operator_ge, h]
    congr 1
    apply propext
    constructor <;> intro h1 <;> omega

/-! ## Losslessness of the renderings -/

theorem digitChar_nibble_injective :
    ∀ m n : Fin 16, Nat.digitChar m.val = Nat.digitChar n.val → m = n := by
  decide

theorem byte_of_hi_lo (x y : uint8_t) (h1 : hi x = hi y) (h2 : lo x = lo y) : x = y := by
  have hx := x.isLt
  have hy := y.isLt
  have e1 := digitChar_nibble_injective ⟨x.val / 16, by omega⟩ ⟨y.val / 16, by omega⟩ h1
  have e2 := digitChar_nibble_injective ⟨x.val % 16, by omega⟩ ⟨y.val % 16, by omega⟩ h2
  have e3 : x.val / 16 = y.val / 16 := congrArg Fin.val e1
  have e4 : x.val % 16 = y.val % 16 := congrArg Fin.val e2
  apply Fin.ext
  omega

/-- C23: the renderings are lossless: two UUIDs have the same `to_string()` exactly
when their 16 bytes are equal, and the same `to_hex()` exactly when their 16 bytes
are equal. -/
theorem renderings_injective (a b : uuid) :
    (to_string a = to_string b ↔ ∀ i : Fin 16, a i = b i) ∧
    (to_hex a = to_hex b ↔ ∀ i : Fin 16, a i = b i) := by
  constructor
  · constructor
    · intro h i
      rw [to_string_eq, to_string_eq] at h
      simp only [Option.some.injEq, List.cons.injEq] at h
      fin_cases i <;> apply byte_of_hi_lo <;> simp [h]
    · intro h
      rw [show a = b from funext h]
  · constructor
    · intro h i
      rw [to_hex_eq, to_hex_eq] at h
      simp only [Option.some.injEq, List.cons.injEq] at h
      fin_cases i <;> apply byte_of_hi_lo <;> simp [h]
    · intro h
      rw [show a = b from funext h]

/-! ## The MD5 test vector -/

set_option maxRecDepth 1000000 in
/-- The model of MD5 yields the digests that RFC 1321 lists in its test suite for the
empty message, `a`, `abc` and `message digest`. -/
theorem md5_sum_rfc1321_test_suite :
    md5_sum [] = [0xd4, 0x1d, 0x8c, 0xd9, 0x8f, 0x00, 0xb2, 0x04,
      0xe9, 0x80, 0x09, 0x98, 0xec, 0xf8, 0x42, 0x7e] ∧
    md5_sum (bytes_of_text "a") = [0x0c, 0xc1, 0x75, 0xb9, 0xc0, 0xf1, 0xb6, 0xa8,
      0x31, 0xc3, 0x99, 0xe2, 0x69, 0x77, 0x26, 0x61] ∧
    md5_sum (bytes_of_text "abc") = [0x90, 0x01, 0x50, 0x98, 0x3c, 0xd2, 0x4f, 0xb0,
      0xd6, 0x96, 0x3f, 0x7d, 0x28, 0xe1, 0x7f, 0x72] ∧
    md5_sum (bytes_of_text "message digest") = [0xf9, 0x6b, 0x69, 0x7d, 0x7c, 0xb7, 0x93, 0x8d,
      0x52, 0x5a, 0x2f, 0x31, 0xaa, 0xf1, 0x61, 0xd0] := by
  decide

theorem md5_rfc1321_streaming : md5_rfc1321.streaming := by
  intro c x y
  exact List.append_assoc c x y

set_option maxRecDepth 1000000 in
theorem version3_dns_bytes :
    version3 md5_rfc1321 uuid_ns.dns (bytes_of_text "0123456789ABCDEF") =
      of_bytes [0xb2, 0x1f, 0x1f, 0x88, 0xe5, 0x2f, 0x30, 0x26,
        0x8f, 0x6a, 0x21, 0x9d, 0x5b, 0x42, 0x02, 0x88] := by
  decide

set_option maxRecDepth 1000000 in
/-- C21: with MD5 as the digest, `version3(uuid_ns::dns, "0123456789ABCDEF")` renders
as `b21f1f88-e52f-3026-8f6a-219d5b420288`, through the pointer and length overload,
the `std::string` overload, the C-string overload and the iterator-range overload. -/
theorem version3_dns_test_vector :
    to_string (version3 md5_rfc1321 uuid_ns.dns (bytes_of_text "0123456789ABCDEF")) =
      some "b21f1f88-e52f-3026-8f6a-219d5b420288".toList ∧
    to_string (version3_string md5_rfc1321 uuid_ns.dns (bytes_of_text "0123456789ABCDEF")) =
      some "b21f1f88-e52f-3026-8f6a-219d5b420288".toList ∧
    to_string (version3_c_str md5_rfc1321 uuid_ns.dns
        (bytes_of_text "0123456789ABCDEF" ++ [0])) =
      some "b21f1f88-e52f-3026-8f6a-219d5b420288".toList ∧
    to_string (version3_range md5_rfc1321 uuid_ns.dns (bytes_of_text "0123456789ABCDEF")) =
      some "b21f1f88-e52f-3026-8f6a-219d5b420288".toList := by
  have hc : string_of_c_str (bytes_of_text "0123456789ABCDEF" ++ [0]) =
      bytes_of_text "0123456789ABCDEF" := by
    decide
  have hr : version3_range md5_rfc1321 uuid_ns.dns (bytes_of_text "0123456789ABCDEF") =
      version3 md5_rfc1321 uuid_ns.dns (bytes_of_text "0123456789ABCDEF") := by
    simp only [version3_range, map_to_u8_val]
  have h : to_string (version3 md5_rfc1321 uuid_ns.dns (bytes_of_text "0123456789ABCDEF")) =
      some "b21f1f88-e52f-3026-8f6a-219d5b420288".toList := by
    rw [version3_dns_bytes, to_string_eq]
    decide
  refine ⟨h, h, ?_, ?_⟩
  · rw [version3_c_str, hc]
    exact h
  · rw [hr]
    exact h

end uuidpp
